import Mathlib

/-!
Verification development for the tokenizer core of `blib2to3/pgen2/tokenize.py`
(the tokenization support of the `black` fork under study).

The Python module is shallowly embedded: every compiled regular expression of
the pattern library is hand-compiled into a deterministic character-list
matcher with the same leftmost / first-alternative / greedy semantics, and the
`generate_tokens` generator becomes a state-passing function from a list of
input lines to the emitted token list, the optional raised error, and the
final scanner state.  Strings are `List Char`; positions are `(row, col)`
pairs of naturals; the `parenlev` counter is an `Int` exactly as Python's
unbounded int (it can go negative).
-/

namespace BlackTok

abbrev Chars := List Char

def cs (s : String) : Chars := s.toList

/-- Single quote character (spelled via its code point to keep literals plain). -/
def sq : Char := Char.ofNat 39

/-- Double quote character. -/
def dq : Char := Char.ofNat 34

/-- Backslash character. -/
def bsl : Char := Char.ofNat 92

/-- Left brace character. -/
def lbr : Char := Char.ofNat 123

/-- Right brace character. -/
def rbr : Char := Char.ofNat 125

/-- Backtick character. -/
def btk : Char := Char.ofNat 96

/-- Python slice `l[a:b]`. -/
def slice (l : Chars) (a b : Nat) : Chars := (l.take b).drop a

/-- `token[-1]` as a one-character string (empty on empty input). -/
def lastChar (l : Chars) : Chars :=
  match l.getLast? with
  | some c => [c]
  | none => []

def countWhile {α : Type} (p : α → Bool) : List α → Nat
  | [] => 0
  | c :: rest => if p c then countWhile p rest + 1 else 0

/-- The `Whitespace` pattern's character class `[ \f\t]`. -/
def isWsChar (c : Char) : Bool := c = ' ' || c = '\x0c' || c = '\t'

/-- Python regex `\s` on the characters relevant here. -/
def isPySpace (c : Char) : Bool :=
  c = ' ' || c = '\t' || c = '\n' || c = '\r' || c = '\x0c' || c = '\x0b'

/-- The characters excluded by the `Name` pattern
`[^\s#\(\)\[\]\{\}+\-*\/!@$%^&=|;:'\",\.<>\/?]` plus backtick, tilde, backslash. -/
def nameExcluded (c : Char) : Bool :=
  c = '#' || c = '(' || c = ')' || c = '[' || c = ']' || c = lbr || c = rbr ||
  c = '+' || c = '-' || c = '*' || c = '/' || c = '!' || c = '@' || c = '$' ||
  c = '%' || c = '^' || c = '&' || c = '=' || c = '|' || c = ';' || c = ':' ||
  c = sq || c = dq || c = ',' || c = '.' || c = '<' || c = '>' || c = '?' ||
  c = btk || c = '~' || c = bsl

def isNameChar (c : Char) : Bool := !isPySpace c && !nameExcluded c

/-- `Name` pattern: one or more name characters. Returns the matched length. -/
def matchName (s : Chars) : Option Nat :=
  let n := countWhile isNameChar s
  if n = 0 then none else some n

/-- `Comment` pattern `#[^\r\n]*`. -/
def matchComment : Chars → Option Nat
  | c :: rest =>
    if c = '#' then some (1 + countWhile (fun d => !(d = '\r' || d = '\n')) rest)
    else none
  | [] => none

/-- The `\\\r?\n` line-continuation pattern. -/
def matchBackslashNL : Chars → Option Nat
  | c :: d :: rest =>
    if c = bsl then
      if d = '\n' then some 2
      else if d = '\r' then
        match rest with
        | e :: _ => if e = '\n' then some 3 else none
        | [] => none
      else none
    else none
  | _ => none

/-! ### Number patterns -/

/-- After one digit of class `p`: greedy `[p]*(?:_[p]+)*` continuation. -/
def radixGo (p : Char → Bool) : Chars → Nat
  | [] => 0
  | c :: rest =>
    if p c then 1 + radixGo p rest
    else if c = '_' then
      match rest with
      | d :: rest2 => if p d then 2 + radixGo p rest2 else 0
      | [] => 0
    else 0

/-- `[p]+(?:_[p]+)*`. -/
def radixDigits (p : Char → Bool) : Chars → Option Nat
  | c :: rest => if p c then some (1 + radixGo p rest) else none
  | [] => none

/-- `\d+(?:_\d+)*`. -/
def digitsUnd (s : Chars) : Option Nat := radixDigits Char.isDigit s

/-- `Exponent` pattern `[eE][-+]?\d+(?:_\d+)*`. -/
def matchExp : Chars → Option Nat
  | c :: rest =>
    if c = 'e' || c = 'E' then
      match rest with
      | d :: rest2 =>
        if d = '+' || d = '-' then (digitsUnd rest2).map (· + 2)
        else (digitsUnd rest).map (· + 1)
      | [] => none
    else none
  | [] => none

/-- `Pointfloat` = `(\d+(?:_\d+)*\.(?:\d+(?:_\d+)*)? | \.\d+(?:_\d+)*) (Exponent)?`. -/
def matchPointfloat (s : Chars) : Option Nat :=
  let base : Option Nat :=
    match digitsUnd s with
    | some d =>
      match s.drop d with
      | c :: rest => if c = '.' then some (d + 1 + ((digitsUnd rest).getD 0)) else none
      | [] => none
    | none =>
      match s with
      | c :: rest => if c = '.' then (digitsUnd rest).map (· + 1) else none
      | [] => none
  base.map (fun b => b + ((matchExp (s.drop b)).getD 0))

/-- `Expfloat` = `\d+(?:_\d+)* Exponent`. -/
def matchExpfloat (s : Chars) : Option Nat :=
  match digitsUnd s with
  | some d => (matchExp (s.drop d)).map (d + ·)
  | none => none

/-- `Floatnumber` = `group(Pointfloat, Expfloat)`. -/
def matchFloat (s : Chars) : Option Nat :=
  (matchPointfloat s).orElse (fun _ => matchExpfloat s)

/-- `Imagnumber` = `group(\d+(?:_\d+)*[jJ], Floatnumber[jJ])`. -/
def matchImag (s : Chars) : Option Nat :=
  let withJ (n : Nat) : Option Nat :=
    match s.drop n with
    | c :: _ => if c = 'j' || c = 'J' then some (n + 1) else none
    | [] => none
  match (digitsUnd s).bind withJ with
  | some n => some n
  | none => (matchFloat s).bind withJ

def isBinDigit (c : Char) : Bool := c = '0' || c = '1'
def isOctDigit (c : Char) : Bool := '0' ≤ c && c ≤ '7'
def isHexDigitC (c : Char) : Bool :=
  c.isDigit || ('a' ≤ c && c ≤ 'f') || ('A' ≤ c && c ≤ 'F')

/-- Append the optional `[lL]?` long suffix. -/
def optL (s : Chars) (n : Nat) : Nat :=
  match s.drop n with
  | c :: _ => if c = 'l' || c = 'L' then n + 1 else n
  | [] => n

/-- `Binnumber` = `0[bB]_?[01]+(?:_[01]+)*`. -/
def matchBin : Chars → Option Nat
  | c0 :: c1 :: rest =>
    if c0 = '0' && (c1 = 'b' || c1 = 'B') then
      match rest with
      | c2 :: rest2 =>
        if c2 = '_' then (radixDigits isBinDigit rest2).map (· + 3)
        else (radixDigits isBinDigit rest).map (· + 2)
      | [] => none
    else none
  | _ => none

/-- `Hexnumber` = `0[xX]_?[\da-fA-F]+(?:_[\da-fA-F]+)*[lL]?`. -/
def matchHex (s : Chars) : Option Nat :=
  match s with
  | c0 :: c1 :: rest =>
    if c0 = '0' && (c1 = 'x' || c1 = 'X') then
      let core :=
        match rest with
        | c2 :: rest2 =>
          if c2 = '_' then (radixDigits isHexDigitC rest2).map (· + 3)
          else (radixDigits isHexDigitC rest).map (· + 2)
        | [] => none
      core.map (optL s)
    else none
  | _ => none

/-- `Octnumber` = `0[oO]?_?[0-7]+(?:_[0-7]+)*[lL]?`. -/
def matchOct (s : Chars) : Option Nat :=
  match s with
  | c0 :: rest =>
    if c0 = '0' then
      let core :=
        match rest with
        | c1 :: rest1 =>
          if c1 = 'o' || c1 = 'O' then
            match rest1 with
            | c2 :: rest2 =>
              if c2 = '_' then (radixDigits isOctDigit rest2).map (· + 3)
              else (radixDigits isOctDigit rest1).map (· + 2)
            | [] => none
          else if c1 = '_' then (radixDigits isOctDigit rest1).map (· + 2)
          else (radixDigits isOctDigit rest).map (· + 1)
        | [] => none
      core.map (optL s)
    else none
  | [] => none

/-- `Decnumber` = `group([1-9]\d*(?:_\d+)*[lL]?, 0[lL]?)`. -/
def matchDec (s : Chars) : Option Nat :=
  match s with
  | c :: rest =>
    if c.isDigit then
      if c = '0' then some (optL s 1)
      else some (optL s (1 + radixGo Char.isDigit rest))
    else none
  | [] => none

/-- `Intnumber` = `group(Binnumber, Hexnumber, Octnumber, Decnumber)`. -/
def matchInt (s : Chars) : Option Nat :=
  (matchBin s).orElse fun _ =>
  (matchHex s).orElse fun _ =>
  (matchOct s).orElse fun _ => matchDec s

/-- `Number` = `group(Imagnumber, Floatnumber, Intnumber)`. -/
def matchNumber (s : Chars) : Option Nat :=
  (matchImag s).orElse fun _ =>
  (matchFloat s).orElse fun _ => matchInt s

/-! ### Operator / bracket / special patterns -/

def opClassChar (c : Char) : Bool :=
  c = '+' || c = '-' || c = '*' || c = '/' || c = '%' || c = '&' || c = '@' ||
  c = '|' || c = '^' || c = '=' || c = '<' || c = '>' || c = ':'

/-- `=?` greedy suffix after `n` matched characters. -/
def optEq (s : Chars) (n : Nat) : Nat :=
  match s.drop n with
  | c :: _ => if c = '=' then n + 1 else n
  | [] => n

/-- `Operator`, alternatives in the source's order (longest first). -/
def matchOperator (s : Chars) : Option Nat :=
  if (cs "**").isPrefixOf s then some (optEq s 2)
  else if (cs ">>").isPrefixOf s then some (optEq s 2)
  else if (cs "<<").isPrefixOf s then some (optEq s 2)
  else if (cs "<>").isPrefixOf s then some 2
  else if (cs "!=").isPrefixOf s then some 2
  else if (cs "//").isPrefixOf s then some (optEq s 2)
  else if (cs "->").isPrefixOf s then some 2
  else
    match s with
    | c :: _ =>
      if opClassChar c then some (optEq s 1)
      else if c = '~' then some 1 else none
    | [] => none

/-- `Bracket` = `[][(){}]`. -/
def matchBracket : Chars → Option Nat
  | c :: _ =>
    if c = '[' || c = ']' || c = '(' || c = ')' || c = lbr || c = rbr then some 1
    else none
  | [] => none

/-- `Special` = `group(\r?\n, [:;.,` backtick `@])`. -/
def matchSpecial : Chars → Option Nat
  | c :: rest =>
    if c = '\r' then
      match rest with
      | d :: _ => if d = '\n' then some 2 else none
      | [] => none
    else if c = '\n' then some 1
    else if c = ':' || c = ';' || c = '.' || c = ',' || c = btk || c = '@' then some 1
    else none
  | [] => none

/-- `Funny` = `group(Operator, Bracket, Special)`. -/
def matchFunny (s : Chars) : Option Nat :=
  (matchOperator s).orElse fun _ =>
  (matchBracket s).orElse fun _ => matchSpecial s

/-! ### String prefixes and the Triple pattern -/

/-- One-character literal string prefixes `[uUrRbB]`. -/
def litPfx1 (c : Char) : Bool :=
  c = 'u' || c = 'U' || c = 'r' || c = 'R' || c = 'b' || c = 'B'

/-- Two-character literal string prefixes `[rR][bB]|[bBuU][rR]`. -/
def litPfx2 (a b : Char) : Bool :=
  ((a = 'r' || a = 'R') && (b = 'b' || b = 'B')) ||
  ((a = 'b' || a = 'B' || a = 'u' || a = 'U') && (b = 'r' || b = 'R'))

/-- `_fstringlitprefix` alternatives, in the source's order. -/
def fstrPfxList : List Chars :=
  [cs "rF", cs "FR", cs "Fr", cs "fr", cs "RF", cs "F", cs "rf", cs "f", cs "Rf", cs "fR"]

/-- Two-character interpolated-string prefixes. -/
def fPfx2 (a b : Char) : Bool :=
  ((a = 'r' || a = 'R') && (b = 'f' || b = 'F')) ||
  ((a = 'f' || a = 'F') && (b = 'r' || b = 'R'))

def tripleQuoteAt (s : Chars) : Option Char :=
  match s with
  | a :: b :: c :: _ =>
    if a = sq && b = sq && c = sq then some sq
    else if a = dq && b = dq && c = dq then some dq
    else none
  | _ => none

/-- `Triple`: an optional (literal or interpolated) prefix followed by three
matching quotes.  The prefix families are disjoint so alternative order is
immaterial here. -/
def matchTriple (s : Chars) : Option Nat :=
  match tripleQuoteAt s with
  | some _ => some 3
  | none =>
    match s with
    | a :: rest =>
      match tripleQuoteAt rest with
      | some _ => if litPfx1 a || a = 'f' || a = 'F' then some 4 else none
      | none =>
        match rest with
        | b :: rest2 =>
          match tripleQuoteAt rest2 with
          | some _ => if litPfx2 a b || fPfx2 a b then some 5 else none
          | none => none
        | [] => none
    | [] => none

/-! ### String-body matchers (the `ContStr` alternatives' tails) -/

/-- `_string_middle_*` then `group(q, \\\r?\n)`: the tail of a `'`/`"` string on
one physical line.  Content excludes the newline; `\\.` does not match a
newline, and a backslash-newline is the continuation ending. -/
def contStrTailPlain (q : Char) : Chars → Option Nat
  | [] => none
  | c :: rest =>
    if c = q then some 1
    else if c = '\n' then none
    else if c = bsl then
      match rest with
      | [] => none
      | d :: rest2 =>
        if d = '\n' then some 2
        else if d = '\r' then
          match rest2 with
          | e :: _ =>
            if e = '\n' then some 3
            else (contStrTailPlain q rest2).map (· + 2)
          | [] => (contStrTailPlain q rest2).map (· + 2)
        else (contStrTailPlain q rest2).map (· + 2)
    else (contStrTailPlain q rest).map (· + 1)

/-- `_fstring_middle_*`: like the plain middle but additionally treating a
doubled brace as content and terminating at a single `{` (the captured group). -/
def fstringMidTail (q : Char) : Chars → Option Nat
  | [] => none
  | c :: rest =>
    if c = lbr then
      match rest with
      | d :: rest2 => if d = lbr then (fstringMidTail q rest2).map (· + 2) else some 1
      | [] => some 1
    else if c = q || c = '\n' then none
    else if c = bsl then
      match rest with
      | d :: rest2 => if d = '\n' then none else (fstringMidTail q rest2).map (· + 2)
      | [] => none
    else (fstringMidTail q rest).map (· + 1)

/-! ### End-of-string recognizers (`endprogs` values) -/

/-- `Single` / `Double`: tail of a one-quote string; newlines are content,
`\\.` cannot escape a newline. -/
def strTail (q : Char) : Chars → Option Nat
  | [] => none
  | c :: rest =>
    if c = q then some 1
    else if c = bsl then
      match rest with
      | d :: rest2 => if d = '\n' then none else (strTail q rest2).map (· + 2)
      | [] => none
    else (strTail q rest).map (· + 1)

/-- `Single3` / `Double3`: tail of a triple-quoted string; a quote not followed
by two more quotes is content. -/
def str3Tail (q : Char) : Chars → Option Nat
  | [] => none
  | c :: rest =>
    if c = q then
      match rest with
      | d :: e :: _ =>
        if d = q && e = q then some 3 else (str3Tail q rest).map (· + 1)
      | _ => (str3Tail q rest).map (· + 1)
    else if c = bsl then
      match rest with
      | d :: rest2 => if d = '\n' then none else (str3Tail q rest2).map (· + 2)
      | [] => none
    else (str3Tail q rest).map (· + 1)

/-- `SingleLbrace` / `DoubleLbrace`: interpolated-string middle ending at a
single unescaped `{`; `{{` is content, newlines are content. -/
def strLbTail (q : Char) : Chars → Option Nat
  | [] => none
  | c :: rest =>
    if c = lbr then
      match rest with
      | d :: rest2 => if d = lbr then (strLbTail q rest2).map (· + 2) else some 1
      | [] => some 1
    else if c = q then none
    else if c = bsl then
      match rest with
      | d :: rest2 => if d = '\n' then none else (strLbTail q rest2).map (· + 2)
      | [] => none
    else (strLbTail q rest).map (· + 1)

/-- `Single3Lbrace` / `Double3Lbrace`: as `strLbTail` but inside a triple quote,
where a quote not followed by two more is content and a closing triple quote
makes the pattern fail (it only ends at `{`). -/
def str3LbTail (q : Char) : Chars → Option Nat
  | [] => none
  | c :: rest =>
    if c = lbr then
      match rest with
      | d :: rest2 => if d = lbr then (str3LbTail q rest2).map (· + 2) else some 1
      | [] => some 1
    else if c = q then
      match rest with
      | d :: e :: _ =>
        if d = q && e = q then none else (str3LbTail q rest).map (· + 1)
      | _ => (str3LbTail q rest).map (· + 1)
    else if c = bsl then
      match rest with
      | d :: rest2 => if d = '\n' then none else (str3LbTail q rest2).map (· + 2)
      | [] => none
    else (str3LbTail q rest).map (· + 1)

/-- The eight compiled end-of-string programs appearing as `endprogs` values. -/
inductive EndProg
  | single | double | single3 | double3
  | singleLb | doubleLb | single3Lb | double3Lb
  deriving DecidableEq, Repr

/-- Run an end program at the head of `s`; the `*_plus_lbrace` programs are the
two-alternative groups `group(SingleLbrace, Single)` etc., first alternative
preferred. -/
def runEndProg : EndProg → Chars → Option Nat
  | .single, s => strTail sq s
  | .double, s => strTail dq s
  | .single3, s => str3Tail sq s
  | .double3, s => str3Tail dq s
  | .singleLb, s => (strLbTail sq s).orElse fun _ => strTail sq s
  | .doubleLb, s => (strLbTail dq s).orElse fun _ => strTail dq s
  | .single3Lb, s => (str3LbTail sq s).orElse fun _ => str3Tail sq s
  | .double3Lb, s => (str3LbTail dq s).orElse fun _ => str3Tail dq s

/-- `_strprefixes`. -/
def strPfxSet : List Chars :=
  [cs "r", cs "R", cs "b", cs "B", cs "rb", cs "rB", cs "Rb", cs "RB",
   cs "br", cs "bR", cs "Br", cs "BR",
   cs "u", cs "U", cs "ur", cs "uR", cs "Ur", cs "UR"]

/-- `_fstring_prefixes`. -/
def fstrPfxSet : List Chars :=
  [cs "f", cs "F", cs "rf", cs "rF", cs "Rf", cs "RF",
   cs "fr", cs "fR", cs "Fr", cs "FR"]

def endsWith3 (q : Char) (k : Chars) : Bool :=
  decide (3 ≤ k.length) && k.drop (k.length - 3) = [q, q, q]

/-- `endprogs.get`: the terminator program keyed by an opening
prefix-plus-quote string, `none` off the table. -/
def endprogGet (k : Chars) : Option EndProg :=
  if endsWith3 sq k then
    let p := k.take (k.length - 3)
    if p = [] || strPfxSet.elem p then some .single3
    else if fstrPfxSet.elem p then some .single3Lb
    else none
  else if endsWith3 dq k then
    let p := k.take (k.length - 3)
    if p = [] || strPfxSet.elem p then some .double3
    else if fstrPfxSet.elem p then some .double3Lb
    else none
  else if k.getLast? = some sq then
    let p := k.dropLast
    if p = [] || strPfxSet.elem p then some .single
    else if fstrPfxSet.elem p then some .singleLb
    else none
  else if k.getLast? = some dq then
    let p := k.dropLast
    if p = [] || strPfxSet.elem p then some .double
    else if fstrPfxSet.elem p then some .doubleLb
    else none
  else none

/-- Membership in the `triple_quoted` set. -/
def tripleQuotedMem (k : Chars) : Bool :=
  (endsWith3 sq k || endsWith3 dq k) &&
    (let p := k.take (k.length - 3)
     p = [] || strPfxSet.elem p || fstrPfxSet.elem p)

/-- Membership in the `single_quoted` set. -/
def singleQuotedMem (k : Chars) : Bool :=
  k = [sq] || k = [dq] ||
  (decide (2 ≤ k.length) && (k.getLast? = some sq || k.getLast? = some dq) &&
    (strPfxSet.elem k.dropLast || fstrPfxSet.elem k.dropLast))

/-! ### The `ContStr` and `PseudoToken` master patterns -/

/-- An optional literal prefix immediately followed by the quote `q`; returns
the prefix length.  Mirrors the alternation order of `_litprefix`
(one-character alternatives before two-character ones before the empty one). -/
def litPfxLen (q : Char) : Chars → Option Nat
  | a :: b :: c :: _ =>
    if litPfx1 a && b = q then some 1
    else if litPfx2 a b && c = q then some 2
    else if a = q then some 0
    else none
  | a :: b :: [] =>
    if litPfx1 a && b = q then some 1
    else if a = q then some 0
    else none
  | a :: [] => if a = q then some 0 else none
  | [] => none

def fPfxLenGo (q : Char) (s : Chars) : List Chars → Option Nat
  | [] => none
  | p :: ps =>
    if p.isPrefixOf s && (s.drop p.length).head? = some q then some p.length
    else fPfxLenGo q s ps

/-- An `_fstringlitprefix` immediately followed by the quote `q`, trying the
alternatives in the source's order. -/
def fPfxLen (q : Char) (s : Chars) : Option Nat := fPfxLenGo q s fstrPfxList

/-- A `ContStr` match: its length and, for the interpolated alternatives, the
length of the prefix-plus-quote capturing group. -/
structure ContStrM where
  len : Nat
  pq : Option Nat
  deriving DecidableEq, Repr

/-- The six `ContStr` alternatives, in the source's order. -/
def matchContStr (s : Chars) : Option ContStrM :=
  let alt (q : Char) : Option ContStrM :=
    match litPfxLen q s with
    | some k => (contStrTailPlain q (s.drop (k + 1))).map fun t => ⟨k + 1 + t, none⟩
    | none => none
  let altFMid (q : Char) : Option ContStrM :=
    match fPfxLen q s with
    | some k => (fstringMidTail q (s.drop (k + 1))).map fun t => ⟨k + 1 + t, some (k + 1)⟩
    | none => none
  let altFPlain (q : Char) : Option ContStrM :=
    match fPfxLen q s with
    | some k => (contStrTailPlain q (s.drop (k + 1))).map fun t => ⟨k + 1 + t, some (k + 1)⟩
    | none => none
  (alt sq).orElse fun _ =>
  (alt dq).orElse fun _ =>
  (altFMid sq).orElse fun _ =>
  (altFMid dq).orElse fun _ =>
  (altFPlain sq).orElse fun _ => altFPlain dq

/-- A `pseudoprog` match at a position of a line: the whitespace run, the span
of capturing group 1 (absolute columns), and, when a `ContStr` interpolated
alternative matched, the absolute end column of its prefix-plus-quote group. -/
structure PMatch where
  ws : Nat
  start : Nat
  stop : Nat
  fpq : Option Nat
  deriving DecidableEq, Repr

/-- Group 1 of `PseudoToken`: `group(PseudoExtras, Number, Funny, ContStr, Name)`
with `PseudoExtras = group(\\\r?\n, Comment, Triple)`, alternatives tried in
order.  Returns the match length and the relative prefix-quote group end. -/
def pseudoBody (s : Chars) : Option (Nat × Option Nat) :=
  match matchBackslashNL s with
  | some n => some (n, none)
  | none =>
  match matchComment s with
  | some n => some (n, none)
  | none =>
  match matchTriple s with
  | some n => some (n, none)
  | none =>
  match matchNumber s with
  | some n => some (n, none)
  | none =>
  match matchFunny s with
  | some n => some (n, none)
  | none =>
  match matchContStr s with
  | some m => some (m.len, m.pq)
  | none =>
  match matchName s with
  | some n => some (n, none)
  | none => none

/-- `pseudoprog.match(line, pos)`. -/
def pseudoMatch (line : Chars) (pos : Nat) : Option PMatch :=
  let rest := line.drop pos
  let w := countWhile isWsChar rest
  match pseudoBody (rest.drop w) with
  | some (n, pq) => some ⟨w, pos + w, pos + w + n, pq.map fun k => pos + w + k⟩
  | none => none

/-! ### Tokens, state, errors -/

inductive TokKind
  | NAME | NUMBER | STRING | FSTRING_START | FSTRING_MIDDLE | FSTRING_END
  | LBRACE | RBRACE | OP | NEWLINE | NL | INDENT | DEDENT | COMMENT
  | ENDMARKER | ERRORTOKEN | ASYNC | AWAIT
  deriving DecidableEq, Repr

/-- A five-tuple token `(type, string, (srow, scol), (erow, ecol), line)`. -/
structure Tok where
  kind : TokKind
  text : Chars
  start : Nat × Nat
  stop : Nat × Nat
  line : Chars
  deriving DecidableEq, Repr

/-- The failures `generate_tokens` can raise: its two declared errors plus the
runtime errors its code can hit (an `IndexError` from `endprog_stack[-1]` on an
empty stack or from `line[pos]` past the end, and an assertion failure). -/
inductive Err
  | tokenError (msg : String) (pos : Nat × Nat)
  | indentationError (lnum : Nat) (pos : Nat) (line : Chars)
  | indexError
  | assertionError
  | fuelExhausted
  deriving DecidableEq, Repr

def tabsize : Nat := 8

/-- The local state of one `generate_tokens` pass. -/
structure St where
  lnum : Nat := 0
  parenlev : Int := 0
  fstring_level : Nat := 0
  continued : Bool := false
  inside_fstring_braces : Bool := false
  contstr : Chars := []
  needcont : Bool := false
  contline : Option Chars := none
  indents : List Nat := [0]
  async_keywords : Bool := false
  stashed : Option Tok := none
  async_def : Bool := false
  async_def_indent : Nat := 0
  async_def_nl : Bool := false
  strstart : Nat × Nat := (0, 0)
  endprog_stack : List EndProg := []
  deriving DecidableEq, Repr

/-- Outcome of processing one input line. -/
inductive LineOut
  | next (toks : List Tok) (st : St)
  | brk (toks : List Tok) (st : St)
  | fail (toks : List Tok) (e : Err) (st : St)
  deriving DecidableEq, Repr

/-- Outcome of one iteration of the within-line scan. -/
inductive StepRes
  | ok (toks : List Tok) (st : St) (pos : Nat)
  | brk (toks : List Tok) (st : St)
  | fail (toks : List Tok) (e : Err) (st : St)
  deriving DecidableEq, Repr

def prependLine (ts : List Tok) : LineOut → LineOut
  | .next t s => .next (ts ++ t) s
  | .brk t s => .brk (ts ++ t) s
  | .fail t e s => .fail (ts ++ t) e s

def prependStep (ts : List Tok) : StepRes → StepRes
  | .ok t s p => .ok (ts ++ t) s p
  | .brk t s => .brk (ts ++ t) s
  | .fail t e s => .fail (ts ++ t) e s

/-- `if stashed: yield stashed; stashed = None`: emit the buffered token, if
any, and clear the buffer (a no-op emission when the buffer is empty). -/
def flushStashed (st : St) : List Tok × St :=
  (st.stashed.toList, { st with stashed := none })

/-- Approximation of `str.isidentifier()` on the single characters that can
start a `Name` match: ASCII letters, underscore, and any non-ASCII character. -/
def isIdentStart (c : Char) : Bool := c.isAlpha || c = '_' || decide (128 ≤ c.val.toNat)

/-! ### The scanner branches -/

/-- The ordinary-name branch of the scanner, including the contextual
`async`/`await` promotion and the one-slot `stashed` buffer. -/
def handleName (st : St) (line : Chars) (token : Chars) (spos epos : Nat × Nat)
    (pos : Nat) : StepRes :=
  if (token = cs "async" || token = cs "await") && (st.async_keywords || st.async_def) then
    .ok [⟨if token = cs "async" then .ASYNC else .AWAIT, token, spos, epos, line⟩] st pos
  else
    let tok : Tok := ⟨.NAME, token, spos, epos, line⟩
    if token = cs "async" && st.stashed = none then
      .ok [] { st with stashed := some tok } pos
    else if token = cs "def" || token = cs "for" then
      match st.stashed with
      | some s =>
        if s.kind = .NAME && s.text = cs "async" then
          let st1 :=
            if token = cs "def" then
              { st with async_def := true,
                        async_def_indent := st.indents.getLastD 0, stashed := none }
            else { st with stashed := none }
          .ok ([⟨.ASYNC, s.text, s.start, s.stop, s.line⟩] ++ (flushStashed st1).1 ++ [tok])
            (flushStashed st1).2 pos
        else .ok ((flushStashed st).1 ++ [tok]) (flushStashed st).2 pos
      | none => .ok ((flushStashed st).1 ++ [tok]) (flushStashed st).2 pos
    else .ok ((flushStashed st).1 ++ [tok]) (flushStashed st).2 pos

/-- The triple-quote-opener branch (the interpolated and plain cases written
out separately; both follow the source's order: a possible `FSTRING_START`,
then on a same-line terminator match the flush of `stashed` and the string
tokens, otherwise the continuation state for the following lines). -/
def handleTriple (st : St) (line : Chars) (token : Chars) (start pos : Nat)
    (spos epos : Nat × Nat) : StepRes :=
  match endprogGet token with
  | none => .fail [] .assertionError st
  | some ep =>
    if token.head? = some 'f' then
      let st0 : St := { st with fstring_level := st.fstring_level + 1,
                                endprog_stack := st.endprog_stack ++ [ep] }
      let t0 : List Tok := [⟨.FSTRING_START, token, spos, epos, line⟩]
      match runEndProg ep (line.drop pos) with
      | some len =>
        let tf := (flushStashed st0).1
        let st1 := (flushStashed st0).2
        let e := pos + len
        let token2 := slice line pos e
        if !(token2.getLast? = some lbr) then
          .ok (t0 ++ tf ++
              [⟨.FSTRING_MIDDLE, token2.take (token2.length - 3), (st.lnum, pos), (st.lnum, e - 3), line⟩,
               ⟨.FSTRING_END, token2.drop (token2.length - 3), (st.lnum, e - 3), (st.lnum, e), line⟩])
            { st1 with fstring_level := st1.fstring_level - 1,
                       endprog_stack := st1.endprog_stack.dropLast } e
        else
          .ok (t0 ++ tf ++
              [⟨.FSTRING_MIDDLE, token2.take (token2.length - 1), (st.lnum, pos), (st.lnum, e - 1), line⟩,
               ⟨.LBRACE, [lbr], (st.lnum, e - 1), (st.lnum, e), line⟩])
            { st1 with inside_fstring_braces := true } e
      | none =>
        .brk t0 { st0 with strstart := (st.lnum, start), contstr := line.drop start,
                           contline := some line }
    else
      match runEndProg ep (line.drop pos) with
      | some len =>
        .ok ((flushStashed st).1 ++ [⟨.STRING, slice line start (pos + len), spos, epos, line⟩])
          (flushStashed st).2 (pos + len)
      | none =>
        .brk [] { st with strstart := (st.lnum, start), contstr := line.drop start,
                          contline := some line }

/-- The single-quote-opener branch; `fpq` is the absolute end of the
prefix-plus-quote capturing group, `mstart`/`mstop` the whole pseudo match's
span (its start includes the leading whitespace the pattern consumed). -/
def handleSingleQuoted (st : St) (line : Chars) (token : Chars) (start pos : Nat)
    (spos epos : Nat × Nat) (fpq : Option Nat) (mstart mstop : Nat) : StepRes :=
  let mEp := (endprogGet [token.headD ' ']).orElse fun _ =>
    (endprogGet (token.take 2)).orElse fun _ => endprogGet (token.take 3)
  match mEp with
  | none => .fail [] .assertionError st
  | some ep =>
    if token.getLast? = some '\n' then
      .brk [] { st with endprog_stack := st.endprog_stack ++ [ep],
                        strstart := (st.lnum, start),
                        contstr := line.drop start, needcont := true,
                        contline := some line }
    else
      let tf := (flushStashed st).1
      let st0 := (flushStashed st).2
      if !(token.head? = some 'f') then
        .ok (tf ++ [⟨.STRING, token, spos, epos, line⟩]) st0 pos
      else
        match fpq with
        | none => .fail tf .assertionError st0
        | some g =>
          let fstring_start := slice line start g
          let offset := g - mstart
          match endprogGet fstring_start with
          | none => .fail tf .assertionError st0
          | some ep2 =>
            let st1 := { st0 with fstring_level := st0.fstring_level + 1,
                                  endprog_stack := st0.endprog_stack ++ [ep2] }
            let end_offset := mstop - 1
            let tS : Tok := ⟨.FSTRING_START, fstring_start, spos, (st.lnum, start + offset), line⟩
            let tM : Tok := ⟨.FSTRING_MIDDLE, slice line (start + offset) end_offset,
                             (st.lnum, start + offset), (st.lnum, end_offset), line⟩
            if !(token.getLast? = some lbr) then
              .ok (tf ++ [tS, tM,
                  ⟨.FSTRING_END, lastChar token, (st.lnum, end_offset), (st.lnum, end_offset + 1), line⟩])
                { st1 with fstring_level := st1.fstring_level - 1,
                           endprog_stack := st1.endprog_stack.dropLast } pos
            else
              .ok (tf ++ [tS, tM,
                  ⟨.LBRACE, [lbr], (st.lnum, end_offset), (st.lnum, end_offset + 1), line⟩])
                { st1 with inside_fstring_braces := true } pos

/-- Classification of a line-terminator token met during the within-line scan
(`newline = NEWLINE` unless `parenlev > 0 or inside_fstring_braces`). -/
def newlineKind (parenlev : Int) (inside_fstring_braces : Bool) : TokKind :=
  if parenlev > 0 || inside_fstring_braces then .NL else .NEWLINE

/-- The `parenlev` update performed by the operator branch. -/
def parenDelta (c : Char) : Int :=
  if c = '(' || c = '[' || c = lbr then 1
  else if c = ')' || c = ']' || c = rbr then -1
  else 0

/-- Dispatch on a pseudo match, following the source's branch order. -/
def dispatchPseudo (st : St) (line : Chars) (pm : PMatch) : StepRes :=
  let start := pm.start
  let pos := pm.stop
  let token := slice line start pm.stop
  let spos := (st.lnum, start)
  let epos := (st.lnum, pm.stop)
  match token.head? with
  | none => .fail [] .assertionError st
  | some initial =>
    if initial.isDigit || (initial = '.' && token ≠ ['.']) then
      .ok [⟨.NUMBER, token, spos, epos, line⟩] st pos
    else if initial = '\r' || initial = '\n' then
      let k := newlineKind st.parenlev st.inside_fstring_braces
      let st1 := if k = .NEWLINE && st.async_def then { st with async_def_nl := true } else st
      .ok ((flushStashed st1).1 ++ [⟨k, token, spos, epos, line⟩]) (flushStashed st1).2 pos
    else if initial = '#' then
      .ok ((flushStashed st).1 ++ [⟨.COMMENT, token, spos, epos, line⟩]) (flushStashed st).2 pos
    else if tripleQuotedMem token then
      handleTriple st line token start pos spos epos
    else if singleQuotedMem [initial] || singleQuotedMem (token.take 2)
        || singleQuotedMem (token.take 3) then
      handleSingleQuoted st line token start pos spos epos pm.fpq (start - pm.ws) pm.stop
    else if isIdentStart initial then
      handleName st line token spos epos pos
    else if initial = bsl then
      .ok ((flushStashed st).1 ++ [⟨.NL, token, spos, (st.lnum, pos), line⟩])
        { (flushStashed st).2 with continued := true } pos
    else if initial = rbr && st.parenlev = 0 && st.inside_fstring_braces then
      .ok [⟨.RBRACE, token, spos, epos, line⟩] { st with inside_fstring_braces := false } pos
    else
      let st1 := { st with parenlev := st.parenlev + parenDelta initial }
      .ok ((flushStashed st1).1 ++ [⟨.OP, token, spos, epos, line⟩]) (flushStashed st1).2 pos

/-- `pseudoprog` step: a match dispatches; no match yields a one-character
`ERRORTOKEN` (or, past the end of the line, Python's `line[pos]` raises). -/
def pseudoPart (st : St) (line : Chars) (pos : Nat) : StepRes :=
  match pseudoMatch line pos with
  | some pm => dispatchPseudo st line pm
  | none =>
    match (line.drop pos).head? with
    | some c => .ok [⟨.ERRORTOKEN, [c], (st.lnum, pos), (st.lnum, pos + 1), line⟩] st (pos + 1)
    | none => .fail [] .indexError st

/-- One iteration of the within-line `while pos < max` loop: first the
interpolated-string literal-mode resume, then (in the same iteration) the
pseudo-token step at the advanced position. -/
def innerIter (st : St) (line : Chars) (pos : Nat) : StepRes :=
  if 0 < st.fstring_level && !st.inside_fstring_braces then
    match st.endprog_stack.getLast? with
    | none => .fail [] .indexError st
    | some ep =>
      match runEndProg ep (line.drop pos) with
      | some len =>
        let e := pos + len
        let token := slice line pos e
        let tf := (flushStashed st).1
        let st0 := (flushStashed st).2
        let tM : Tok := ⟨.FSTRING_MIDDLE, token.take (token.length - 1),
                         (st.lnum, pos), (st.lnum, e - 1), line⟩
        if !(token.getLast? = some lbr) then
          prependStep (tf ++ [tM,
              ⟨.FSTRING_END, lastChar token, (st.lnum, e - 1), (st.lnum, e), line⟩])
            (pseudoPart { st0 with fstring_level := st0.fstring_level - 1,
                                   endprog_stack := st0.endprog_stack.dropLast } line e)
        else
          prependStep (tf ++ [tM, ⟨.LBRACE, [lbr], (st.lnum, 0), (st.lnum, 0), line⟩])
            (pseudoPart { st0 with inside_fstring_braces := true } line e)
      | none =>
        .brk [] { st with contstr := st.contstr ++ line, contline := some line }
  else pseudoPart st line pos

/-- The within-line scan loop; the fuel strictly exceeds the number of
remaining positions, so it never runs out on a run from the entry points. -/
def scanFrom : Nat → St → Chars → Nat → LineOut
  | 0, st, _, _ => .fail [] .fuelExhausted st
  | fuel + 1, st, line, pos =>
    if pos < line.length then
      match innerIter st line pos with
      | .ok toks st2 pos2 => prependLine toks (scanFrom fuel st2 line pos2)
      | .brk toks st2 => .next toks st2
      | .fail toks e st2 => .fail toks e st2
    else .next [] st

/-! ### Per-line processing -/

/-- Leading-whitespace measurement of a new statement: spaces count one, a tab
advances to the next multiple of `tabsize`, a form feed resets the column.
Returns `(column, pos)`. -/
def measureIndent : Chars → Nat → Nat × Nat
  | [], col => (col, 0)
  | c :: rest, col =>
    if c = ' ' then
      let (cl, p) := measureIndent rest (col + 1); (cl, p + 1)
    else if c = '\t' then
      let (cl, p) := measureIndent rest ((col / tabsize + 1) * tabsize); (cl, p + 1)
    else if c = '\x0c' then
      let (cl, p) := measureIndent rest 0; (cl, p + 1)
    else (col, 0)

/-- `line[pos:].rstrip("\r\n")`. -/
def rstripCRLF (l : Chars) : Chars :=
  (l.reverse.dropWhile fun c => c = '\r' || c = '\n').reverse

/-- The `while column < indents[-1]` dedent loop.  Returns the `DEDENT` tokens
in emission order together with the remaining stack and async-def tracking
state, or the `IndentationError` the source raises on an unmatched column. -/
def dedentLoop (fuel lnum pos : Nat) (line : Chars) (column : Nat)
    (indents : List Nat) (adef : Bool) (adefInd : Nat) (adefNl : Bool) :
    Except Err (List Tok × List Nat × Bool × Nat × Bool) :=
  match fuel with
  | 0 => .error .fuelExhausted
  | fuel + 1 =>
    if column < indents.getLastD 0 then
      if !(indents.elem column) then .error (.indentationError lnum pos line)
      else
        let indents2 := indents.dropLast
        let clr := adef && decide (adefInd ≥ indents2.getLastD 0)
        match dedentLoop fuel lnum pos line column indents2 (if clr then false else adef)
            (if clr then 0 else adefInd) (if clr then false else adefNl) with
        | .error e => .error e
        | .ok r =>
          .ok (⟨.DEDENT, [], (lnum, pos), (lnum, pos), line⟩ :: r.1, r.2)
    else .ok ([], indents, adef, adefInd, adefNl)

/-- The new-statement branch: measure indentation, handle blank and
comment-only lines, emit `INDENT`/`DEDENT`, then scan the rest of the line. -/
def newStatementLine (st : St) (line : Chars) : LineOut :=
  if line.length = 0 then .brk [] st
  else
    let column := (measureIndent line 0).1
    let pos := (measureIndent line 0).2
    if pos = line.length then .brk [] st
    else
      let tf := (flushStashed st).1
      let st0 := (flushStashed st).2
      let c := (line.drop pos).headD ' '
      if c = '\r' || c = '\n' then
        .next (tf ++ [⟨.NL, line.drop pos, (st0.lnum, pos), (st0.lnum, line.length), line⟩]) st0
      else if c = '#' then
        let comment_token := rstripCRLF (line.drop pos)
        let nl_pos := pos + comment_token.length
        .next (tf ++
          [⟨.COMMENT, comment_token, (st0.lnum, pos), (st0.lnum, nl_pos), line⟩,
           ⟨.NL, line.drop nl_pos, (st0.lnum, nl_pos), (st0.lnum, line.length), line⟩]) st0
      else
        let ti : List Tok :=
          if st0.indents.getLastD 0 < column then
            [⟨.INDENT, line.take pos, (st0.lnum, 0), (st0.lnum, pos), line⟩]
          else []
        let st1 :=
          if st0.indents.getLastD 0 < column then
            { st0 with indents := st0.indents ++ [column] }
          else st0
        match dedentLoop (st1.indents.length + 1) st1.lnum pos line column st1.indents
            st1.async_def st1.async_def_indent st1.async_def_nl with
        | .error e => .fail (tf ++ ti) e st1
        | .ok r =>
          let clr := r.2.2.1 && r.2.2.2.2 && decide (r.2.2.2.1 ≥ r.2.1.getLastD 0)
          let st2 := { st1 with indents := r.2.1,
                                async_def := if clr then false else r.2.2.1,
                                async_def_indent := if clr then 0 else r.2.2.2.1,
                                async_def_nl := if clr then false else r.2.2.2.2 }
          prependLine (tf ++ ti ++ r.1) (scanFrom (line.length + 1) st2 line pos)

/-- The continued-string branch: the line continues a pending multi-line
string (`contstr` truthy, not inside interpolation braces). -/
def contstrLine (st : St) (line : Chars) : LineOut :=
  if st.contline = none then .fail [] .assertionError st
  else if line.length = 0 then
    .fail [] (.tokenError "EOF in multi-line string" st.strstart) st
  else
    match st.endprog_stack.getLast? with
    | none => .fail [] .indexError st
    | some ep =>
      match runEndProg ep line with
      | some e =>
        let token := st.contstr ++ line.take e
        let spos := st.strstart
        let epos := (st.lnum, e)
        let tokenline := st.contline.getD [] ++ line
        let stc := { st with contstr := [], needcont := false, contline := none }
        if st.fstring_level = 0 then
          prependLine [⟨.STRING, token, spos, epos, tokenline⟩]
            (scanFrom (line.length + 1) stc line e)
        else
          let tM : Tok := ⟨.FSTRING_MIDDLE, token, spos, epos, tokenline⟩
          if token.getLast? = some lbr then
            prependLine [tM, ⟨.LBRACE, [lbr], spos, epos, tokenline⟩]
              (scanFrom (line.length + 1) { stc with inside_fstring_braces := true } line e)
          else
            prependLine [tM, ⟨.FSTRING_END, lastChar token, spos, epos, tokenline⟩]
              (scanFrom (line.length + 1)
                { stc with fstring_level := stc.fstring_level - 1,
                           endprog_stack := stc.endprog_stack.dropLast } line e)
      | none =>
        if st.needcont && line.drop (line.length - 2) ≠ [bsl, '\n']
            && line.drop (line.length - 3) ≠ [bsl, '\r', '\n'] then
          .next [⟨.ERRORTOKEN, st.contstr ++ line, st.strstart, (st.lnum, line.length),
                  st.contline.getD []⟩]
            { st with contstr := [], contline := none }
        else
          .next [] { st with contstr := st.contstr ++ line,
                             contline := some (st.contline.getD [] ++ line) }

/-- One iteration of the outer `while 1` loop on a line the reader returned. -/
def processLine (stIn : St) (line : Chars) : LineOut :=
  let st := { stIn with lnum := stIn.lnum + 1 }
  if st.contstr ≠ [] && !st.inside_fstring_braces then contstrLine st line
  else if st.parenlev = 0 && !st.continued && !st.inside_fstring_braces then
    newStatementLine st line
  else if line.length = 0 then
    .fail [] (.tokenError "EOF in multi-line statement" (st.lnum, 0)) st
  else scanFrom (line.length + 1) { st with continued := false } line 0

/-- Everything emitted after the outer loop breaks: the pending stashed token,
one `DEDENT` per remaining non-bottom indent level, one `ENDMARKER`. -/
structure Res where
  toks : List Tok
  err : Option Err
  fin : St
  deriving DecidableEq, Repr

def epilogue (st : St) : Res :=
  let tf := (flushStashed st).1
  let st1 := (flushStashed st).2
  ⟨tf ++ ((st1.indents.drop 1).map fun _ => ⟨.DEDENT, [], (st1.lnum, 0), (st1.lnum, 0), []⟩)
      ++ [⟨.ENDMARKER, [], (st1.lnum, 0), (st1.lnum, 0), []⟩], none, st1⟩

/-- The loop iteration on the empty line the reader returns at end of input
(`lnum` is still incremented; then each branch either raises or breaks). -/
def eofFinish (stIn : St) : Res :=
  let st := { stIn with lnum := stIn.lnum + 1 }
  if st.contstr ≠ [] && !st.inside_fstring_braces then
    ⟨[], some (.tokenError "EOF in multi-line string" st.strstart), st⟩
  else if st.parenlev = 0 && !st.continued && !st.inside_fstring_braces then
    epilogue st
  else ⟨[], some (.tokenError "EOF in multi-line statement" (st.lnum, 0)), st⟩

/-- The outer loop over the lines the reader yields; an exhausted reader
returns empty lines forever, handled by `eofFinish`. -/
def tokLoop : St → List Chars → Res
  | st, [] => eofFinish st
  | st, l :: rest =>
    match processLine st l with
    | .next toks st2 => let r := tokLoop st2 rest; ⟨toks ++ r.toks, r.err, r.fin⟩
    | .brk toks st2 => let r := epilogue st2; ⟨toks ++ r.toks, r.err, r.fin⟩
    | .fail toks e st2 => ⟨toks, some e, st2⟩

/-- `generate_tokens(readline, grammar)`: the reader is the list of its
successive return values, the grammar contributes only `async_keywords`. -/
def generate_tokens (async_keywords : Bool) (lines : List Chars) : Res :=
  tokLoop { async_keywords := async_keywords } lines

/-! ### Untokenizer (full five-tuple form) -/

/-- The full-form path of `Untokenizer.untokenize`: pad with spaces up to each
token's start column (`add_whitespace`, whose `assert row <= self.prev_row`
failing is modeled as `none`), append the text, track the previous end, and
advance a row after `NEWLINE`/`NL`. -/
def untokGo : Nat → Nat → List Tok → Option Chars
  | _, _, [] => some []
  | prevRow, prevCol, t :: rest =>
    if t.start.1 ≤ prevRow then
      let pad := List.replicate (t.start.2 - prevCol) ' '
      let (pr, pc) :=
        if t.kind = .NEWLINE || t.kind = .NL then (t.stop.1 + 1, 0) else (t.stop.1, t.stop.2)
      (untokGo pr pc rest).map fun tail => pad ++ t.text ++ tail
    else none

def untokenize (toks : List Tok) : Option Chars := untokGo 1 0 toks

/-! ### Encoding detector

Byte lines are lists of naturals below 256.  The standard codec registry
(`codecs.lookup`) is an external collaborator: it is passed as an oracle
mapping an encoding name to the canonical name of its codec (`none` for an
unknown encoding). -/

def BOM_UTF8 : List Nat := [239, 187, 191]

/-- `line.decode("ascii")`, `none` on a `UnicodeDecodeError`. -/
def decodeAscii (l : List Nat) : Option Chars :=
  if l.all (· < 128) then some (l.map Char.ofNat) else none

/-- `_get_normal_name`: first twelve characters, lowercased, underscores to
hyphens; collapse the `utf-8` and `iso-8859-1` families. -/
def _get_normal_name (orig : Chars) : Chars :=
  let enc := (orig.take 12).map fun c => if c = '_' then '-' else c.toLower
  if enc = cs "utf-8" || (cs "utf-8-").isPrefixOf enc then cs "utf-8"
  else if enc = cs "latin-1" || enc = cs "iso-8859-1" || enc = cs "iso-latin-1"
      || (cs "latin-1-").isPrefixOf enc || (cs "iso-8859-1-").isPrefixOf enc
      || (cs "iso-latin-1-").isPrefixOf enc then cs "iso-8859-1"
  else orig

/-- The name class `[-\w.]` of `cookie_re` under `re.ASCII`. -/
def isCookieWordChar (c : Char) : Bool :=
  c.isAlphanum || c = '_' || c = '-' || c = '.'

/-- The lazy `.*?coding[:=][ \t]*([-\w.]+)` search after the `#`: earliest
position (never crossing a newline, which `.` cannot match) where `coding`,
a separator and a nonempty name follow. -/
def cookieAfterHash : Chars → Option Chars
  | [] => none
  | c :: rest =>
    if c = '\n' then none
    else
      let here : Option Chars :=
        if (cs "coding").isPrefixOf (c :: rest) then
          match (c :: rest).drop 6 with
          | d :: rest2 =>
            if d = ':' || d = '=' then
              let rest3 := rest2.drop (countWhile (fun e => e = ' ' || e = '\t') rest2)
              let n := countWhile isCookieWordChar rest3
              if n = 0 then none else some (rest3.take n)
            else none
          | [] => none
        else none
      match here with
      | some nm => some nm
      | none => cookieAfterHash rest

/-- `cookie_re.match`: leading blanks, a `#`, then the lazy cookie search. -/
def cookieName (s : Chars) : Option Chars :=
  let s1 := s.drop (countWhile isWsChar s)
  match s1 with
  | c :: rest => if c = '#' then cookieAfterHash rest else none
  | [] => none

/-- `blank_re.match` on a byte line: `^[ \t\f]*(?:[#\r\n]|$)`. -/
def blankRe (l : List Nat) : Bool :=
  match l.drop (countWhile (fun b => b = 32 || b = 9 || b = 12) l) with
  | [] => true
  | b :: _ => b = 35 || b = 13 || b = 10

/-- `find_cookie`: `ok none` when the line carries no (decodable) cookie,
`error` for the two `SyntaxError` cases, otherwise the reported name. -/
def find_cookie (lookup : Chars → Option Chars) (bom_found : Bool) (line : List Nat) :
    Except Chars (Option Chars) :=
  match decodeAscii line with
  | none => .ok none
  | some s =>
    match cookieName s with
    | none => .ok none
    | some nm =>
      let encoding := _get_normal_name nm
      match lookup encoding with
      | none => .error (cs "unknown encoding: " ++ encoding)
      | some codecN =>
        if bom_found then
          if codecN ≠ cs "utf-8" then .error (cs "encoding problem: utf-8")
          else .ok (some (encoding ++ cs "-sig"))
        else .ok (some encoding)

/-- The byte-order-mark step of `detect_encoding` on the first line read:
`(bom_found, first, default)`. -/
def detectBom (read1 : List Nat) : Bool × List Nat × Chars :=
  if BOM_UTF8.isPrefixOf read1 then (true, read1.drop 3, cs "utf-8-sig")
  else (false, read1, cs "utf-8")

/-- `detect_encoding(readline)`: the reader is the list of its return values.
Returns the encoding name and the (post-BOM-strip) lines consumed, or the
`SyntaxError` message. -/
def detect_encoding (lookup : Chars → Option Chars) (input : List (List Nat)) :
    Except Chars (Chars × List (List Nat)) :=
  let (bom_found, first, default) := detectBom (input.headD [])
  if first = [] then .ok (default, [])
  else
    match find_cookie lookup bom_found first with
    | .error e => .error e
    | .ok (some enc) => .ok (enc, [first])
    | .ok none =>
      if !blankRe first then .ok (default, [first])
      else
        let second := (input.drop 1).headD []
        if second = [] then .ok (default, [first])
        else
          match find_cookie lookup bom_found second with
          | .error e => .error e
          | .ok (some enc) => .ok (enc, [first, second])
          | .ok none => .ok (default, [first, second])

/-! ## Invariants of the emitted token stream -/

/-- The synthetic-token text discipline actually implemented: `DEDENT` and
`ENDMARKER` carry empty text, an `INDENT` carries the line's leading
whitespace `line[:pos]` (its span is `(row, 0)`–`(row, pos)`). -/
def tokSyn (t : Tok) : Prop :=
  (t.kind = .DEDENT → t.text = []) ∧ (t.kind = .ENDMARKER → t.text = []) ∧
  (t.kind = .INDENT → t.text = t.line.take t.stop.2)

/-- A token emitted before the end-of-stream epilogue. -/
def tokBody (t : Tok) : Prop := t.kind ≠ .ENDMARKER ∧ tokSyn t

/-- The state invariant threaded through a pass: any stashed token is a body
token, and the indent stack starts at `0` with positive entries above. -/
def stInv (st : St) : Prop :=
  (∀ t, st.stashed = some t → tokBody t) ∧
  st.indents.head? = some 0 ∧ ∀ x ∈ st.indents.drop 1, 0 < x

def stepOK : StepRes → Prop
  | .ok toks st _ => (∀ t ∈ toks, tokBody t) ∧ stInv st
  | .brk toks st => (∀ t ∈ toks, tokBody t) ∧ stInv st
  | .fail toks _ _ => ∀ t ∈ toks, tokBody t

def lineOK : LineOut → Prop
  | .next toks st => (∀ t ∈ toks, tokBody t) ∧ stInv st
  | .brk toks st => (∀ t ∈ toks, tokBody t) ∧ stInv st
  | .fail toks _ _ => ∀ t ∈ toks, tokBody t

theorem flushStashed_mem {st : St} (h : stInv st) :
    ∀ t ∈ (flushStashed st).1, tokBody t := by
  cases hs : st.stashed with
  | none => simp [flushStashed, hs]
  | some s =>
    simp only [flushStashed, hs, Option.toList_some, List.mem_singleton]
    rintro t rfl
    exact h.1 _ hs

theorem flushStashed_inv {st : St} (h : stInv st) : stInv (flushStashed st).2 :=
  ⟨by simp [flushStashed], h.2.1, h.2.2⟩

theorem prependStep_ok {ts : List Tok} {r : StepRes}
    (h1 : ∀ t ∈ ts, tokBody t) (h2 : stepOK r) : stepOK (prependStep ts r) := by
  cases r with
  | ok toks st pos =>
    exact ⟨fun t ht => ((List.mem_append.1 ht).elim (h1 t) (h2.1 t)), h2.2⟩
  | brk toks st =>
    exact ⟨fun t ht => ((List.mem_append.1 ht).elim (h1 t) (h2.1 t)), h2.2⟩
  | fail toks e st =>
    exact fun t ht => ((List.mem_append.1 ht).elim (h1 t) (h2 t))

theorem prependLine_ok {ts : List Tok} {r : LineOut}
    (h1 : ∀ t ∈ ts, tokBody t) (h2 : lineOK r) : lineOK (prependLine ts r) := by
  cases r with
  | next toks st =>
    exact ⟨fun t ht => ((List.mem_append.1 ht).elim (h1 t) (h2.1 t)), h2.2⟩
  | brk toks st =>
    exact ⟨fun t ht => ((List.mem_append.1 ht).elim (h1 t) (h2.1 t)), h2.2⟩
  | fail toks e st =>
    exact fun t ht => ((List.mem_append.1 ht).elim (h1 t) (h2 t))

theorem tokBody_plain {k : TokKind} {text : Chars} {s e : Nat × Nat} {l : Chars}
    (h1 : k ≠ .ENDMARKER) (h2 : k ≠ .DEDENT) (h3 : k ≠ .INDENT) :
    tokBody ⟨k, text, s, e, l⟩ :=
  ⟨h1, fun hd => absurd hd h2, fun he => absurd he h1, fun hi => absurd hi h3⟩

theorem all_nilT : ∀ t ∈ ([] : List Tok), tokBody t := fun _ ht => nomatch ht

theorem tokBody_dedent {s e : Nat × Nat} {l : Chars} :
    tokBody ⟨.DEDENT, [], s, e, l⟩ := by
  simp [tokBody, tokSyn]

theorem all_appendT {l1 l2 : List Tok} (a : ∀ t ∈ l1, tokBody t)
    (b : ∀ t ∈ l2, tokBody t) : ∀ t ∈ l1 ++ l2, tokBody t := by
  intro t ht
  rcases List.mem_append.1 ht with h | h
  exacts [a t h, b t h]

theorem all_consT {t0 : Tok} {l : List Tok} (a : tokBody t0)
    (b : ∀ t ∈ l, tokBody t) : ∀ t ∈ t0 :: l, tokBody t := by
  intro t ht
  rcases List.mem_cons.1 ht with rfl | h
  exacts [a, b t h]

theorem all_stashT {o : Option Tok} (h : ∀ t, o = some t → tokBody t) :
    ∀ t ∈ o.toList, tokBody t := by
  cases o with
  | none => exact fun _ ht => nomatch ht
  | some s =>
    intro t ht
    rcases List.mem_singleton.1 ht with rfl
    exact h t rfl

theorem mem_toListT {o : Option Tok} {t : Tok} : t ∈ o.toList ↔ o = some t := by
  cases o <;> simp [Option.toList, eq_comm]

theorem handleName_ok {st : St} (h : stInv st) (line token : Chars)
    (spos epos : Nat × Nat) (pos : Nat) :
    stepOK (handleName st line token spos epos pos) := by
  obtain ⟨h1, h2, h3⟩ := h
  unfold handleName
  repeat' split
  all_goals
    simp_all [stepOK, stInv, tokBody, tokSyn, flushStashed]
  all_goals
    rintro t (ht | ht) <;>
      first
      | exact h1 t ht
      | (subst ht; exact ⟨by simp, by simp, by simp, by simp⟩)

theorem handleTriple_ok {st : St} (h : stInv st) (line token : Chars)
    (start pos : Nat) (spos epos : Nat × Nat) :
    stepOK (handleTriple st line token start pos spos epos) := by
  obtain ⟨h1, h2, h3⟩ := h
  unfold handleTriple flushStashed
  dsimp only
  repeat' split
  all_goals
    first
    | exact all_nilT
    | exact ⟨all_nilT, h1, h2, h3⟩
    | refine ⟨?_, ?_⟩
  all_goals
    first
    | (refine ⟨?_, h2, h3⟩
       first
       | exact h1
       | (intro t ht; exact nomatch ht))
    | (intro t ht
       simp only [List.mem_append, List.mem_cons, List.not_mem_nil, or_false, false_or,
         mem_toListT, List.mem_singleton] at ht
       try casesm* _ ∨ _
       all_goals
         first
         | exact h1 t (by assumption)
         | (subst_vars
            exact tokBody_plain (by decide) (by decide) (by decide)))

theorem handleSingleQuoted_ok {st : St} (h : stInv st) (line token : Chars)
    (start pos : Nat) (spos epos : Nat × Nat) (fpq : Option Nat) (mstart mstop : Nat) :
    stepOK (handleSingleQuoted st line token start pos spos epos fpq mstart mstop) := by
  obtain ⟨h1, h2, h3⟩ := h
  unfold handleSingleQuoted flushStashed
  dsimp only
  repeat' split
  all_goals
    first
    | exact all_nilT
    | exact all_stashT h1
    | exact ⟨all_nilT, h1, h2, h3⟩
    | refine ⟨?_, ?_⟩
  all_goals
    first
    | (refine ⟨?_, h2, h3⟩
       first
       | exact h1
       | (intro t ht; exact nomatch ht))
    | (intro t ht
       simp only [List.mem_append, List.mem_cons, List.not_mem_nil, or_false, false_or,
         mem_toListT, List.mem_singleton] at ht
       try casesm* _ ∨ _
       all_goals
         first
         | exact h1 t (by assumption)
         | (subst_vars
            exact tokBody_plain (by decide) (by decide) (by decide)))

theorem stInv_mk {st : St} (a : ∀ t, st.stashed = some t → tokBody t)
    (b : st.indents.head? = some 0) (c : ∀ x ∈ st.indents.drop 1, 0 < x) : stInv st :=
  ⟨a, b, c⟩

theorem stInv_of {st : St} (hs : st.stashed = none)
    (hh : st.indents.head? = some 0) (ht : ∀ x ∈ st.indents.drop 1, 0 < x) : stInv st :=
  ⟨fun _ hsome => Option.noConfusion (hs.symm.trans hsome), hh, ht⟩

theorem newlineKind_ne (p : Int) (b : Bool) :
    newlineKind p b ≠ .ENDMARKER ∧ newlineKind p b ≠ .DEDENT ∧ newlineKind p b ≠ .INDENT := by
  unfold newlineKind
  split <;> exact ⟨by decide, by decide, by decide⟩

theorem dispatchPseudo_ok {st : St} (h : stInv st) (line : Chars) (pm : PMatch) :
    stepOK (dispatchPseudo st line pm) := by
  obtain ⟨h1, h2, h3⟩ := h
  unfold dispatchPseudo flushStashed
  dsimp only
  repeat' split
  all_goals
    first
    | exact all_nilT
    | apply handleTriple_ok ⟨h1, h2, h3⟩
    | apply handleSingleQuoted_ok ⟨h1, h2, h3⟩
    | apply handleName_ok ⟨h1, h2, h3⟩
    | refine ⟨?_, ?_⟩
  all_goals
    first
    | (refine ⟨?_, h2, h3⟩
       first
       | exact h1
       | (intro t ht; exact nomatch ht))
    | (intro t ht
       simp only [List.mem_append, List.mem_cons, List.not_mem_nil, or_false, false_or,
         mem_toListT, List.mem_singleton] at ht
       try casesm* _ ∨ _
       all_goals
         first
         | exact h1 t (by assumption)
         | (subst_vars
            first
            | exact tokBody_plain (by decide) (by decide) (by decide)
            | exact tokBody_plain (newlineKind_ne _ _).1 (newlineKind_ne _ _).2.1
                (newlineKind_ne _ _).2.2))

theorem pseudoPart_ok {st : St} (h : stInv st) (line : Chars) (pos : Nat) :
    stepOK (pseudoPart st line pos) := by
  unfold pseudoPart
  repeat' split
  all_goals
    first
    | exact dispatchPseudo_ok h line _
    | exact all_nilT
    | (refine ⟨?_, h⟩
       intro t ht
       rcases List.mem_singleton.1 ht with rfl
       exact tokBody_plain (by decide) (by decide) (by decide))

theorem innerIter_ok {st : St} (h : stInv st) (line : Chars) (pos : Nat) :
    stepOK (innerIter st line pos) := by
  obtain ⟨h1, h2, h3⟩ := h
  unfold innerIter flushStashed
  dsimp only
  repeat' split
  all_goals
    first
    | exact pseudoPart_ok ⟨h1, h2, h3⟩ line pos
    | exact all_nilT
    | exact ⟨all_nilT, h1, h2, h3⟩
    | (refine prependStep_ok ?_ (pseudoPart_ok ?_ line _)
       · intro t ht
         simp only [List.mem_append, List.mem_cons, List.not_mem_nil, or_false, false_or,
           mem_toListT, List.mem_singleton] at ht
         try casesm* _ ∨ _
         all_goals
           first
           | exact h1 t (by assumption)
           | (subst_vars
              exact tokBody_plain (by decide) (by decide) (by decide))
       · exact stInv_of rfl h2 h3)

theorem scanFrom_ok (fuel : Nat) : ∀ (st : St) (line : Chars) (pos : Nat), stInv st →
    lineOK (scanFrom fuel st line pos) := by
  induction fuel with
  | zero => exact fun st line pos _ => all_nilT
  | succ n ih =>
    intro st line pos h
    unfold scanFrom
    split
    · have hstep := innerIter_ok h line pos
      cases hI : innerIter st line pos with
      | ok toks st2 pos2 =>
        rw [hI] at hstep
        exact prependLine_ok hstep.1 (ih st2 line pos2 hstep.2)
      | brk toks st2 => rw [hI] at hstep; exact hstep
      | fail toks e st2 => rw [hI] at hstep; exact hstep
    · exact ⟨all_nilT, h⟩

theorem dedentLoop_ok (fuel : Nat) : ∀ (lnum pos : Nat) (line : Chars) (column : Nat)
    (indents : List Nat) (adef : Bool) (adefInd : Nat) (adefNl : Bool),
    indents.head? = some 0 → (∀ x ∈ indents.drop 1, 0 < x) →
    ∀ r, dedentLoop fuel lnum pos line column indents adef adefInd adefNl = .ok r →
    (∀ t ∈ r.1, tokBody t) ∧ r.2.1.head? = some 0 ∧ ∀ x ∈ r.2.1.drop 1, 0 < x := by
  induction fuel with
  | zero =>
    intro _ _ _ _ _ _ _ _ _ _ r hr
    exact absurd hr (by simp [dedentLoop])
  | succ n ih =>
    intro lnum pos line column indents adef adefInd adefNl hh ht r hr
    rw [dedentLoop] at hr
    dsimp only at hr
    split at hr
    · split at hr
      · exact absurd hr (by simp)
      · rename_i hcol hmem
        obtain ⟨rest, hrest⟩ : ∃ rest, indents = 0 :: rest := by
          cases indents with
          | nil => simp at hh
          | cons a l =>
            simp only [List.head?_cons, Option.some.injEq] at hh
            exact ⟨l, by rw [hh]⟩
        have hrne : rest ≠ [] := by
          intro he
          rw [hrest, he] at hcol
          simp at hcol
        have hd : indents.dropLast.head? = some 0 := by
          rw [hrest]
          cases rest with
          | nil => exact absurd rfl hrne
          | cons b l2 => simp
        have hdt : ∀ x ∈ indents.dropLast.drop 1, 0 < x := by
          intro x hx
          refine ht x ?_
          rw [hrest] at hx ⊢
          cases rest with
          | nil => simp at hx
          | cons b l2 =>
            simp only [List.drop_one, List.tail_cons] at hx ⊢
            exact ((b :: l2).dropLast_sublist).mem (by simpa using hx)
        split at hr
        · exact absurd hr (by simp)
        · rename_i r2 hr2
          have hres := ih lnum pos line column indents.dropLast _ _ _ hd hdt r2 hr2
          simp only [Except.ok.injEq] at hr
          subst hr
          refine ⟨?_, hres.2.1, hres.2.2⟩
          intro t htm
          rcases List.mem_cons.1 htm with rfl | htm2
          · exact tokBody_dedent
          · exact hres.1 t htm2
    · simp only [Except.ok.injEq] at hr
      subst hr
      exact ⟨all_nilT, hh, ht⟩

theorem indents_push {l : List Nat} {c : Nat} (hh : l.head? = some 0)
    (ht : ∀ x ∈ l.drop 1, 0 < x) (hc : l.getLastD 0 < c) :
    (l ++ [c]).head? = some 0 ∧ ∀ x ∈ (l ++ [c]).drop 1, 0 < x := by
  cases l with
  | nil => simp at hh
  | cons a rest =>
    simp only [List.head?_cons, Option.some.injEq] at hh
    subst hh
    refine ⟨by simp, ?_⟩
    intro x hx
    simp only [List.cons_append, List.drop_one, List.tail_cons, List.mem_append,
      List.mem_singleton] at hx
    rcases hx with hx | rfl
    · exact ht x (by simpa using hx)
    · exact Nat.lt_of_le_of_lt (Nat.zero_le _) hc

theorem tokBody_indent {line : Chars} {r pos : Nat} :
    tokBody ⟨.INDENT, line.take pos, (r, 0), (r, pos), line⟩ := by
  simp [tokBody, tokSyn]

theorem newStatementLine_ok {st : St} (h : stInv st) (line : Chars) :
    lineOK (newStatementLine st line) := by
  obtain ⟨h1, h2, h3⟩ := h
  unfold newStatementLine flushStashed
  dsimp only
  repeat' split
  all_goals
    try first
    | exact ⟨all_nilT, h1, h2, h3⟩
    | (refine ⟨?_, stInv_of rfl h2 h3⟩
       intro t ht
       simp only [List.mem_append, List.mem_cons, List.not_mem_nil, or_false, false_or,
         mem_toListT, List.mem_singleton] at ht
       try casesm* _ ∨ _
       all_goals
         first
         | exact h1 t (by assumption)
         | (subst_vars
            exact tokBody_plain (by decide) (by decide) (by decide)))
    | (intro t ht
       simp only [List.mem_append, List.mem_cons, List.not_mem_nil, or_false, false_or,
         mem_toListT, List.mem_singleton] at ht
       try casesm* _ ∨ _
       all_goals
         first
         | exact h1 t (by assumption)
         | (subst_vars
            first
            | exact tokBody_indent
            | exact tokBody_plain (by decide) (by decide) (by decide)))
  all_goals
    rename _ = Except.ok _ => hr
    first
    | (rename Not (_ < _) => hc
       simp only [if_neg hc] at hr
       have hres := dedentLoop_ok _ _ _ _ _ _ _ _ _ h2 h3 _ hr
       refine prependLine_ok ?_ (scanFrom_ok _ _ line _ (stInv_of rfl hres.2.1 hres.2.2))
       exact all_appendT (all_appendT (all_stashT h1) all_nilT) hres.1)
    | (rename _ < _ => hc
       simp only [if_pos hc] at hr
       have hp := indents_push h2 h3 hc
       have hres := dedentLoop_ok _ _ _ _ _ _ _ _ _ hp.1 hp.2 _ hr
       refine prependLine_ok ?_ (scanFrom_ok _ _ line _ (stInv_of rfl hres.2.1 hres.2.2))
       exact all_appendT (all_appendT (all_stashT h1) (all_consT tokBody_indent all_nilT)) hres.1)

theorem contstrLine_ok {st : St} (h : stInv st) (line : Chars) :
    lineOK (contstrLine st line) := by
  obtain ⟨h1, h2, h3⟩ := h
  unfold contstrLine
  dsimp only
  repeat' split
  all_goals
    first
    | exact all_nilT
    | exact ⟨all_nilT, h1, h2, h3⟩
    | (refine prependLine_ok ?_ (scanFrom_ok _ _ line _ ⟨h1, h2, h3⟩)
       intro t ht
       simp only [List.mem_cons, List.not_mem_nil, or_false] at ht
       try casesm* _ ∨ _
       all_goals
         (subst_vars
          exact tokBody_plain (by decide) (by decide) (by decide)))
    | (refine ⟨?_, h1, h2, h3⟩
       intro t ht
       rcases List.mem_singleton.1 ht with rfl
       exact tokBody_plain (by decide) (by decide) (by decide))

theorem processLine_ok {st : St} (h : stInv st) (line : Chars) :
    lineOK (processLine st line) := by
  obtain ⟨h1, h2, h3⟩ := h
  unfold processLine
  dsimp only
  repeat' split
  all_goals
    first
    | exact all_nilT
    | (apply contstrLine_ok
       exact stInv_mk h1 h2 h3)
    | (apply newStatementLine_ok
       exact stInv_mk h1 h2 h3)
    | (apply scanFrom_ok
       exact stInv_mk h1 h2 h3)

theorem epilogue_syn {st : St} (h : stInv st) : ∀ t ∈ (epilogue st).toks, tokSyn t := by
  obtain ⟨h1, _, _⟩ := h
  unfold epilogue flushStashed
  dsimp only
  intro t ht
  simp only [List.mem_append, mem_toListT, List.mem_singleton, List.mem_map] at ht
  rcases ht with (ht | ht) | rfl
  · exact (h1 t ht).2
  · rcases ht with ⟨x, _, rfl⟩
    simp [tokSyn]
  · simp [tokSyn]

theorem tokLoop_syn {st : St} (lines : List Chars) (h : stInv st) :
    ∀ t ∈ (tokLoop st lines).toks, tokSyn t := by
  induction lines generalizing st with
  | nil =>
    unfold tokLoop eofFinish
    dsimp only
    split
    · exact fun t ht => nomatch ht
    split
    · exact epilogue_syn (stInv_mk h.1 h.2.1 h.2.2)
    · exact fun t ht => nomatch ht
  | cons l rest ih =>
    have hP := processLine_ok h l
    unfold tokLoop
    dsimp only
    cases hL : processLine st l with
    | next toks st2 =>
      rw [hL] at hP
      intro t ht
      rcases List.mem_append.1 ht with ht | ht
      · exact (hP.1 t ht).2
      · exact ih hP.2 t ht
    | brk toks st2 =>
      rw [hL] at hP
      intro t ht
      rcases List.mem_append.1 ht with ht | ht
      · exact (hP.1 t ht).2
      · exact epilogue_syn hP.2 t ht
    | fail toks e st2 =>
      rw [hL] at hP
      intro t ht
      exact (hP t ht).2

theorem tokLoop_end {st : St} (lines : List Chars) (h : stInv st)
    (hok : (tokLoop st lines).err = none) :
    ∃ pre, (tokLoop st lines).toks
        = pre ++ (((tokLoop st lines).fin.indents.drop 1).map fun _ =>
            (⟨.DEDENT, [], ((tokLoop st lines).fin.lnum, 0),
              ((tokLoop st lines).fin.lnum, 0), []⟩ : Tok))
          ++ [⟨.ENDMARKER, [], ((tokLoop st lines).fin.lnum, 0),
              ((tokLoop st lines).fin.lnum, 0), []⟩]
      ∧ (∀ t ∈ pre, t.kind ≠ .ENDMARKER)
      ∧ (tokLoop st lines).fin.indents.head? = some 0
      ∧ ∀ x ∈ (tokLoop st lines).fin.indents.drop 1, 0 < x := by
  induction lines generalizing st with
  | nil =>
    obtain ⟨h1, h2, h3⟩ := h
    unfold tokLoop eofFinish at hok ⊢
    dsimp only at hok ⊢
    split at hok
    · exact absurd hok (by simp)
    split at hok
    · rename _ = true => hp
      rename Not _ => hn
      rw [if_neg hn, if_pos hp]
      unfold epilogue flushStashed
      dsimp only
      refine ⟨st.stashed.toList, by rw [List.append_assoc], ?_, h2, h3⟩
      exact fun t ht => ((all_stashT h1) t ht).1
    · exact absurd hok (by simp)
  | cons l rest ih =>
    have hP := processLine_ok h l
    unfold tokLoop at hok ⊢
    dsimp only at hok ⊢
    cases hL : processLine st l with
    | next toks st2 =>
      rw [hL] at hP hok
      dsimp only at hok ⊢
      obtain ⟨pre, heq, hne, hh, ht⟩ := ih hP.2 hok
      refine ⟨toks ++ pre, ?_, ?_, hh, ht⟩
      · rw [heq]
        simp [List.append_assoc]
      · intro t htm
        rcases List.mem_append.1 htm with htm | htm
        · exact (hP.1 t htm).1
        · exact hne t htm
    | brk toks st2 =>
      rw [hL] at hP hok
      dsimp only at hok ⊢
      obtain ⟨hP1, hP2⟩ := hP
      obtain ⟨g1, g2, g3⟩ := hP2
      unfold epilogue flushStashed
      dsimp only
      refine ⟨toks ++ st2.stashed.toList, ?_, ?_, g2, g3⟩
      · simp [List.append_assoc]
      · intro t htm
        rcases List.mem_append.1 htm with htm | htm
        · exact (hP1 t htm).1
        · exact ((all_stashT g1) t htm).1
    | fail toks e st2 =>
      rw [hL] at hok
      dsimp only at hok
      exact absurd hok (by simp)

/-! ## Claim theorems -/

set_option maxRecDepth 10000

/-- The initial state of a pass (`generate_tokens` locals before the loop). -/
def initSt (async_keywords : Bool) : St := { async_keywords := async_keywords }

theorem initSt_inv (akw : Bool) : stInv (initSt akw) :=
  stInv_mk (fun _ ht => nomatch ht) rfl (by simp [initSt])

theorem generate_tokens_eq (akw : Bool) (lines : List Chars) :
    generate_tokens akw lines = tokLoop (initSt akw) lines := rfl

/-- The input `1<TAB>+2<NL>`. -/
def tabInput : Chars := cs "1\t+2\n"

/-- C1.  The full-form round trip fails on the code: on the well-formed input
`1<TAB>+2<NL>` the pass succeeds, but `untokenize` pads only with spaces, so
`untokenize(tokenize(S))` is `1 +2<NL>`, not `S` — contradicting the
untokenizer's own docstring (`Untokenized source will match input source
exactly`). -/
theorem claim1_roundtrip_fails :
    (generate_tokens false [tabInput]).err = none ∧
    untokenize (generate_tokens false [tabInput]).toks = some (cs "1 +2\n") ∧
    cs "1 +2\n" ≠ tabInput :=
  ⟨by decide, by decide, by decide⟩

/-- The input `f"{x}{y}"<NL>` (braces written as characters). -/
def fxyInput : Chars := ['f', dq, lbr, 'x', rbr, lbr, 'y', rbr, dq, '\n']

/-- C2.  The span discipline fails on the code: tokenizing `f"{x}{y}"` emits
(at index 6) the second `LBRACE` with start = end = `(1, 0)` — from the
literal-resume branch whose positions the source itself marks `TODO: most of
the positions are wrong` — so neither `end > start` nor
`text = line[start.col:end.col]` holds for it, though the pass succeeds. -/
theorem claim2_span_bug :
    (generate_tokens false [fxyInput]).err = none ∧
    (generate_tokens false [fxyInput]).toks.get? 6
      = some ⟨.LBRACE, [lbr], (1, 0), (1, 0), fxyInput⟩ ∧
    slice fxyInput 0 0 = ([] : Chars) ∧ [lbr] ≠ ([] : Chars) :=
  ⟨by decide, by decide, by decide, by decide⟩

/-- The input `f"{f'{2+2}'}"(<NL>`: the nested f-string of the source's own
TODO comment, followed by `(` so that the pass completes. -/
def nestedFInput : Chars :=
  ['f', dq, lbr, 'f', sq, lbr, '2', '+', '2', rbr, sq, rbr, dq, '(', '\n']

/-- C5.  F-string brace balance fails on nested f-strings, exactly as the
source's TODO comment (`this doesn't work right now: f"{f'{2+2}'}"`) admits:
in this completed pass the outer `FSTRING_START` (index 0) is closed by the
`FSTRING_END` at index 14, but between them two `LBRACE` and only one
`RBRACE` are emitted — the outer closing brace is emitted as an `OP` instead
(index 12), because `inside_fstring_braces` was already cleared. -/
theorem claim5_brace_imbalance :
    (generate_tokens false [nestedFInput]).err = none ∧
    (generate_tokens false [nestedFInput]).toks.map Tok.kind
      = [.FSTRING_START, .FSTRING_MIDDLE, .LBRACE, .FSTRING_START, .FSTRING_MIDDLE, .LBRACE,
         .NUMBER, .OP, .NUMBER, .RBRACE, .FSTRING_MIDDLE, .FSTRING_END, .OP, .FSTRING_MIDDLE,
         .FSTRING_END, .OP, .NEWLINE, .ENDMARKER] ∧
    (((generate_tokens false [nestedFInput]).toks.take 15).filter
        fun t => t.kind = TokKind.LBRACE).length = 2 ∧
    (((generate_tokens false [nestedFInput]).toks.take 15).filter
        fun t => t.kind = TokKind.RBRACE).length = 1 :=
  ⟨by decide, by decide, by decide, by decide⟩

/-- C8, counterexample.  `parenlev` is not non-negative at every point: on the
input consisting of the single line `)` the pass scans one `OP` token and the
final state's `parenlev` is `-1`. -/
theorem claim8_counterexample :
    (generate_tokens false [cs ")"]).toks
      = [⟨.OP, cs ")", (1, 0), (1, 1), cs ")"⟩] ∧
    (generate_tokens false [cs ")"]).fin.parenlev = -1 ∧
    (generate_tokens false [cs ")"]).fin.parenlev < 0 :=
  ⟨by decide, by decide, by decide⟩

/-- C8, amended.  `parenlev` is an unbounded integer: each of `(`, `[`, `{`
scanned by the operator branch adds `1`, each of `)`, `]`, `}` subtracts `1`
(other characters leave it unchanged), with no lower bound, so it goes
negative on unmatched closing brackets (it is `-1` after tokenizing `)`) and
returns to `0` when every closer is matched again. -/
theorem claim8_amended :
    (parenDelta '(' = 1 ∧ parenDelta '[' = 1 ∧ parenDelta lbr = 1 ∧
     parenDelta ')' = -1 ∧ parenDelta ']' = -1 ∧ parenDelta rbr = -1 ∧
     parenDelta 'x' = 0) ∧
    (generate_tokens false [cs ")"]).fin.parenlev = -1 ∧
    (generate_tokens false [cs ") (\n"]).err = none ∧
    (generate_tokens false [cs ") (\n"]).fin.parenlev = 0 :=
  ⟨⟨by decide, by decide, by decide, by decide, by decide, by decide, by decide⟩,
   by decide, by decide, by decide⟩

/-- C9, counterexample.  An `INDENT` token does not have empty text: on input
`    x<NL>` the first emitted token is the `INDENT` whose text is the four
spaces of leading whitespace. -/
theorem claim9_counterexample :
    (generate_tokens false [cs "    x\n"]).toks.get? 0
      = some ⟨.INDENT, cs "    ", (1, 0), (1, 4), cs "    x\n"⟩ ∧
    cs "    " ≠ ([] : Chars) :=
  ⟨by decide, by decide⟩

/-- C9, amended.  In every pass, every emitted `DEDENT` and `ENDMARKER` token
has empty text, while an `INDENT` token's text is the leading whitespace of
its line, `line[:pos]` — the slice of its line up to its end column. -/
theorem claim9_amended (akw : Bool) (lines : List Chars) :
    ∀ t ∈ (generate_tokens akw lines).toks,
      (t.kind = .DEDENT → t.text = []) ∧ (t.kind = .ENDMARKER → t.text = []) ∧
      (t.kind = .INDENT → t.text = t.line.take t.stop.2) :=
  fun t ht => tokLoop_syn lines (initSt_inv akw) t ht

/-- C9, witness: the amended statement applied to the final `DEDENT` of the
pass over `    x<NL>`. -/
theorem claim9_witness :
    (⟨.DEDENT, [], (2, 0), (2, 0), []⟩ : Tok) ∈ (generate_tokens false [cs "    x\n"]).toks ∧
    ((⟨.DEDENT, [], (2, 0), (2, 0), []⟩ : Tok).kind = .DEDENT →
      (⟨.DEDENT, [], (2, 0), (2, 0), []⟩ : Tok).text = []) :=
  ⟨by decide, (claim9_amended false [cs "    x\n"] _ (by decide)).1⟩

/-- C4.  On every input on which the pass completes without raising, the
emitted stream ends with one `DEDENT` for each non-zero level remaining on the
indentation stack (whose bottom is `0` and whose higher levels are all
non-zero) followed by exactly one `ENDMARKER`, and no `ENDMARKER` occurs
anywhere earlier. -/
theorem claim4_final_dedents_endmarker (akw : Bool) (lines : List Chars)
    (hok : (generate_tokens akw lines).err = none) :
    ∃ pre, (generate_tokens akw lines).toks
        = pre ++ (((generate_tokens akw lines).fin.indents.drop 1).map fun _ =>
            (⟨.DEDENT, [], ((generate_tokens akw lines).fin.lnum, 0),
              ((generate_tokens akw lines).fin.lnum, 0), []⟩ : Tok))
          ++ [⟨.ENDMARKER, [], ((generate_tokens akw lines).fin.lnum, 0),
              ((generate_tokens akw lines).fin.lnum, 0), []⟩]
      ∧ (∀ t ∈ pre, t.kind ≠ .ENDMARKER)
      ∧ (generate_tokens akw lines).fin.indents.head? = some 0
      ∧ ∀ x ∈ (generate_tokens akw lines).fin.indents.drop 1, 0 < x :=
  tokLoop_end lines (initSt_inv akw) hok

/-- C4, witness: the ending shape on the pass over `    x<NL>` (one remaining
level `4`, hence one final `DEDENT` then the `ENDMARKER`). -/
theorem claim4_witness :
    (generate_tokens false [cs "    x\n"]).err = none ∧
    ∃ pre, (generate_tokens false [cs "    x\n"]).toks
        = pre ++ (((generate_tokens false [cs "    x\n"]).fin.indents.drop 1).map fun _ =>
            (⟨.DEDENT, [], ((generate_tokens false [cs "    x\n"]).fin.lnum, 0),
              ((generate_tokens false [cs "    x\n"]).fin.lnum, 0), []⟩ : Tok))
          ++ [⟨.ENDMARKER, [], ((generate_tokens false [cs "    x\n"]).fin.lnum, 0),
              ((generate_tokens false [cs "    x\n"]).fin.lnum, 0), []⟩]
      ∧ (∀ t ∈ pre, t.kind ≠ .ENDMARKER)
      ∧ (generate_tokens false [cs "    x\n"]).fin.indents.head? = some 0
      ∧ ∀ x ∈ (generate_tokens false [cs "    x\n"]).fin.indents.drop 1, 0 < x :=
  ⟨by decide, claim4_final_dedents_endmarker false [cs "    x\n"] (by decide)⟩

/-- C3, counterexample.  A terminator is `NEWLINE` whenever `parenlev > 0` is
false, which negative `parenlev` also satisfies: on `)` alone the newline is
emitted as `NEWLINE` with `parenlev = -1`, and in the completed pass over
`)` then `(` the second newline is also `NEWLINE` although it sits inside the
`(` opened on its own line (the earlier unmatched closer brought the depth
back to `0`). -/
theorem claim3_counterexample :
    (generate_tokens false [cs ")\n"]).toks.map Tok.kind = [.OP, .NEWLINE] ∧
    (generate_tokens false [cs ")\n"]).fin.parenlev = -1 ∧
    (generate_tokens false [cs ")\n", cs "(\n"]).err = none ∧
    (generate_tokens false [cs ")\n", cs "(\n"]).toks.map Tok.kind
      = [.OP, .NEWLINE, .OP, .NEWLINE, .ENDMARKER] ∧
    (generate_tokens false [cs ")\n", cs "(\n"]).toks.map Tok.text
      = [cs ")", cs "\n", cs "(", cs "\n", []] :=
  ⟨by decide, by decide, by decide, by decide, by decide⟩

/-- C3, amended.  A line terminator scanned by the pseudo-token loop is
emitted as `NEWLINE` iff `parenlev ≤ 0` and the scanner is not inside an
f-string brace region (the code tests `parenlev > 0`, so unmatched closing
brackets that drive the depth negative still give `NEWLINE`); otherwise it is
`NL`.  Blank lines, comment-only lines, backslash continuations, terminators
at positive depth and terminators inside f-string braces are `NL`. -/
theorem claim3_amended :
    (∀ (p : Int) (b : Bool), newlineKind p b = .NEWLINE ↔ p ≤ 0 ∧ b = false) ∧
    (generate_tokens false [cs "# hi\n"]).toks.map Tok.kind
      = [.COMMENT, .NL, .ENDMARKER] ∧
    (generate_tokens false [cs "\n", cs "pass\n"]).toks.map Tok.kind
      = [.NL, .NAME, .NEWLINE, .ENDMARKER] ∧
    (generate_tokens false [cs "a = (\n", cs "  1\n", cs ")\n"]).toks.map Tok.kind
      = [.NAME, .OP, .OP, .NL, .NUMBER, .NL, .OP, .NEWLINE, .ENDMARKER] ∧
    (generate_tokens false [cs "x = 1 + \\\n", cs "  2\n"]).toks.map Tok.kind
      = [.NAME, .OP, .NUMBER, .OP, .NL, .NUMBER, .NEWLINE, .ENDMARKER] ∧
    (generate_tokens false [['f', dq, dq, dq, lbr, '\n'], ['1', rbr, dq, dq, dq, '\n']]).toks.map
        Tok.kind
      = [.FSTRING_START, .FSTRING_MIDDLE, .LBRACE, .NL, .NUMBER, .RBRACE, .FSTRING_MIDDLE,
         .FSTRING_END, .NEWLINE, .ENDMARKER] := by
  refine ⟨?_, by decide, by decide, by decide, by decide, by decide⟩
  intro p b
  unfold newlineKind
  split
  · rename _ => hc
    simp only [Bool.or_eq_true, decide_eq_true_eq] at hc
    constructor
    · intro hk; exact absurd hk (by decide)
    · rintro ⟨h1, h2⟩
      rcases hc with hc | hc
      · omega
      · rw [h2] at hc; cases hc
  · rename _ => hc
    simp only [Bool.or_eq_true, decide_eq_true_eq, not_or] at hc
    exact ⟨fun _ => ⟨by omega, by simpa using hc.2⟩, fun _ => rfl⟩

theorem epilogue_err (st : St) : (epilogue st).err = none := rfl

theorem mem_dropLast_of_lt {column : Nat} {indents : List Nat}
    (hm : column ∈ indents) (hlt : column < indents.getLastD 0) :
    column ∈ indents.dropLast := by
  rcases indents with _ | ⟨a, t⟩
  · cases hm
  · have hne : (a :: t) ≠ [] := by simp
    have hsplit : (a :: t).dropLast ++ [(a :: t).getLast hne] = a :: t :=
      List.dropLast_append_getLast hne
    have hgl : (a :: t).getLastD 0 = (a :: t).getLast hne := by
      rw [List.getLastD_eq_getLast?, List.getLast?_eq_getLast _ hne]; rfl
    rw [← hsplit] at hm
    rcases List.mem_append.mp hm with h | h
    · exact h
    · rw [List.mem_singleton] at h
      rw [hgl] at hlt
      omega

theorem dedentLoop_no_ind (fuel lnum pos : Nat) (line : Chars) (column : Nat) :
    ∀ (indents : List Nat) (adef : Bool) (adefInd : Nat) (adefNl : Bool),
      column ∈ indents →
      ∀ l p ln, dedentLoop fuel lnum pos line column indents adef adefInd adefNl
        ≠ .error (.indentationError l p ln) := by
  induction fuel with
  | zero => intro indents adef adefInd adefNl hmem l p ln h; cases h
  | succ n ih =>
    intro indents adef adefInd adefNl hmem l p ln h
    unfold dedentLoop at h
    split at h
    · rename _ < _ => hlt
      have he : List.elem column indents = true := List.elem_iff.mpr hmem
      rw [if_neg (by rw [he]; exact (by decide))] at h
      dsimp only at h
      split at h
      · rename dedentLoop _ _ _ _ _ _ _ _ _ = _ => heq
        rename Except.error _ = Except.error (Err.indentationError _ _ _) => hr
        cases hr
        exact ih _ _ _ _ (mem_dropLast_of_lt hmem hlt) _ _ _ heq
      · rename Except.ok _ = Except.error _ => hr
        cases hr
    · cases h

/-- C6, counterexample.  The raises are not exact: on the single complete
line `)` — no unterminated string, no continuation, nothing left open —
`generate_tokens` still raises `TokenError("EOF in multi-line statement",
(2, 0))`, because the test `parenlev != 0` also fires when unmatched closers
have made `parenlev` negative. -/
theorem claim6_counterexample :
    (generate_tokens false [cs ")\n"]).err
      = some (.tokenError "EOF in multi-line statement" (2, 0)) ∧
    (generate_tokens false [cs ")\n"]).toks.map Tok.kind = [.OP, .NEWLINE] ∧
    (generate_tokens false [cs ")\n"]).fin.contstr = [] ∧
    (generate_tokens false [cs ")\n"]).fin.continued = false ∧
    (generate_tokens false [cs ")\n"]).fin.inside_fstring_braces = false ∧
    (generate_tokens false [cs ")\n"]).fin.parenlev = -1 :=
  ⟨by decide, by decide, by decide, by decide, by decide, by decide⟩

/-- C6, amended.  At EOF the pass raises `TokenError("EOF in multi-line
string", strstart)` iff a string continuation is pending outside f-string
braces, and otherwise raises `TokenError("EOF in multi-line statement",
(lnum+1, 0))` iff `parenlev ≠ 0` (including negative, from unmatched
closers) or a backslash continuation or an f-string brace region is open;
`IndentationError` is raised iff a new statement's column is below the top
of the indentation stack and absent from it; a character matching no pattern
yields a one-character `ERRORTOKEN` and advances one column, never raising. -/
theorem claim6_raises_iff :
    (∀ st : St,
      ((eofFinish st).err ≠ none ↔
        (st.contstr ≠ [] ∧ st.inside_fstring_braces = false) ∨
        ¬(st.parenlev = 0 ∧ st.continued = false ∧ st.inside_fstring_braces = false)) ∧
      (st.contstr ≠ [] → st.inside_fstring_braces = false →
        (eofFinish st).err = some (.tokenError "EOF in multi-line string" st.strstart)) ∧
      (¬(st.parenlev = 0 ∧ st.continued = false ∧ st.inside_fstring_braces = false) →
        (st.contstr = [] ∨ st.inside_fstring_braces = true) →
        (eofFinish st).err
          = some (.tokenError "EOF in multi-line statement" (st.lnum + 1, 0)))) ∧
    (∀ (fuel lnum pos : Nat) (line : Chars) (column : Nat) (indents : List Nat)
        (adef : Bool) (adefInd : Nat) (adefNl : Bool),
      (∃ l p ln, dedentLoop (fuel + 1) lnum pos line column indents adef adefInd adefNl
          = .error (.indentationError l p ln)) ↔
        column < indents.getLastD 0 ∧ ¬column ∈ indents) ∧
    (∀ (st : St) (line : Chars) (pos : Nat) (c : Char),
      pseudoMatch line pos = none → (line.drop pos).head? = some c →
      pseudoPart st line pos
        = .ok [⟨.ERRORTOKEN, [c], (st.lnum, pos), (st.lnum, pos + 1), line⟩] st (pos + 1)) := by
  refine ⟨fun st => ?_, fun fuel lnum pos line column indents adef adefInd adefNl => ?_,
    fun st line pos c hm hh => ?_⟩
  · unfold eofFinish
    dsimp only
    split
    · rename _ => hc
      simp only [Bool.and_eq_true, decide_eq_true_eq, Bool.not_eq_true', ne_eq] at hc
      refine ⟨iff_of_true (by simp) (Or.inl hc), fun _ _ => rfl, fun _ hd => ?_⟩
      rcases hd with hd | hd
      · exact absurd hd hc.1
      · rw [hd] at hc; exact absurd hc.2 (by simp)
    rename ¬_ => hc1
    simp only [Bool.and_eq_true, decide_eq_true_eq, Bool.not_eq_true', ne_eq, not_and] at hc1
    split
    · rename _ => hc2
      simp only [Bool.and_eq_true, decide_eq_true_eq, Bool.not_eq_true', and_assoc] at hc2
      refine ⟨?_, fun h1 h2 => absurd (hc1 h1) (by rw [h2]; simp), fun hn _ => absurd hc2 hn⟩
      constructor
      · intro h; exact absurd (epilogue_err _) h
      · intro h
        rcases h with ⟨h1, h2⟩ | h
        · exact absurd (hc1 h1) (by rw [h2]; simp)
        · exact absurd hc2 h
    · rename ¬_ => hc2
      simp only [Bool.and_eq_true, decide_eq_true_eq, Bool.not_eq_true', and_assoc] at hc2
      exact ⟨iff_of_true (by simp) (Or.inr hc2), fun h1 h2 => absurd (hc1 h1) (by rw [h2]; simp),
        fun _ _ => rfl⟩
  · constructor
    · rintro ⟨l, p, ln, h⟩
      by_cases hmem : column ∈ indents
      · exact absurd h (dedentLoop_no_ind _ _ _ _ _ _ _ _ _ hmem _ _ _)
      · refine ⟨?_, hmem⟩
        by_contra hlt
        unfold dedentLoop at h
        rw [if_neg hlt] at h
        cases h
    · rintro ⟨hlt, hmem⟩
      refine ⟨lnum, pos, line, ?_⟩
      have he : List.elem column indents = false := by
        rw [Bool.eq_false_iff]
        intro hT
        exact hmem (List.elem_iff.mp hT)
      unfold dedentLoop
      rw [if_pos hlt, if_pos (by rw [he]; exact (by decide))]
  · unfold pseudoPart
    simp only [hm, hh]

/-- C7.  Contextual `async`/`await` in the name branch: with `async_keywords`
or inside an `async def` body, `async`/`await` are emitted immediately as
`ASYNC`/`AWAIT` with their own span; otherwise a lone `async` is stashed, is
promoted to `ASYNC` (original span) when the next name is `def` — which also
turns on `async_def` recording the enclosing indent — or `for`, and is
otherwise flushed unchanged as the plain `NAME` token it was stashed as,
before the following name. -/
theorem claim7_contextual_async :
    (∀ (st : St) (line token : Chars) (spos epos : Nat × Nat) (pos : Nat),
      (st.async_keywords = true ∨ st.async_def = true) →
      (token = cs "async" ∨ token = cs "await") →
      handleName st line token spos epos pos
        = .ok [⟨if token = cs "async" then .ASYNC else .AWAIT, token, spos, epos, line⟩]
            st pos) ∧
    (∀ (st : St) (line token : Chars) (spos epos : Nat × Nat) (pos : Nat),
      st.async_keywords = false → st.async_def = false → st.stashed = none →
      token = cs "async" →
      handleName st line token spos epos pos
        = .ok [] { st with stashed := some ⟨.NAME, token, spos, epos, line⟩ } pos) ∧
    (∀ (st : St) (line : Chars) (spos epos : Nat × Nat) (pos : Nat) (s : Tok),
      st.async_keywords = false → st.async_def = false → st.stashed = some s →
      s.kind = .NAME → s.text = cs "async" →
      handleName st line (cs "def") spos epos pos
        = .ok [⟨.ASYNC, s.text, s.start, s.stop, s.line⟩, ⟨.NAME, cs "def", spos, epos, line⟩]
            { st with async_def := true, async_def_indent := st.indents.getLastD 0,
                      stashed := none } pos) ∧
    (∀ (st : St) (line : Chars) (spos epos : Nat × Nat) (pos : Nat) (s : Tok),
      st.async_keywords = false → st.async_def = false → st.stashed = some s →
      s.kind = .NAME → s.text = cs "async" →
      handleName st line (cs "for") spos epos pos
        = .ok [⟨.ASYNC, s.text, s.start, s.stop, s.line⟩, ⟨.NAME, cs "for", spos, epos, line⟩]
            { st with stashed := none } pos) ∧
    (∀ (st : St) (line token : Chars) (spos epos : Nat × Nat) (pos : Nat) (s : Tok),
      st.async_keywords = false → st.async_def = false → st.stashed = some s →
      token ≠ cs "def" → token ≠ cs "for" →
      handleName st line token spos epos pos
        = .ok [s, ⟨.NAME, token, spos, epos, line⟩] { st with stashed := none } pos) := by
  refine ⟨?_, ?_, ?_, ?_, ?_⟩
  · intro st line token spos epos pos hak ht
    unfold handleName
    rw [if_pos (by rcases hak with h | h <;> rcases ht with h2 | h2 <;> simp [h, h2])]
  · intro st line token spos epos pos h1 h2 h3 h4
    unfold handleName
    rw [if_neg (by simp [h1, h2]), if_pos (by simp [h3, h4])]
  · intro st line spos epos pos s h1 h2 h3 h4 h5
    unfold handleName
    rw [if_neg (by simp [h1, h2]), if_neg (by simp [h3]), if_pos (by simp)]
    simp only [h3]
    rw [if_pos (by simp [h4, h5]), if_pos (by decide)]
    simp [flushStashed]
  · intro st line spos epos pos s h1 h2 h3 h4 h5
    unfold handleName
    rw [if_neg (by simp [h1, h2]), if_neg (by simp [h3]), if_pos (by simp)]
    simp only [h3]
    rw [if_pos (by simp [h4, h5]), if_neg (by decide)]
    simp [flushStashed]
  · intro st line token spos epos pos s h1 h2 h3 hd hf
    unfold handleName
    rw [if_neg (by simp [h1, h2]), if_neg (by simp [h3]), if_neg (by simp [hd, hf])]
    simp [flushStashed, h3]

theorem fc_err_iff (lookup : Chars → Option Chars) (bom : Bool) (line : List Nat) :
    (∃ e, find_cookie lookup bom line = .error e) ↔
      ∃ s nm, decodeAscii line = some s ∧ cookieName s = some nm ∧
        (lookup (_get_normal_name nm) = none ∨
         (bom = true ∧ ¬ lookup (_get_normal_name nm) = some (cs "utf-8"))) := by
  rcases hda : decodeAscii line with _ | s
  · simp [find_cookie, hda]
  · rcases hcn : cookieName s with _ | nm
    · simp [find_cookie, hda, hcn]
    · rcases hlk : lookup (_get_normal_name nm) with _ | codecN
      · simp [find_cookie, hda, hcn, hlk]
      · rcases bom with _ | _
        · simp [find_cookie, hda, hcn, hlk]
        · by_cases hc : codecN = cs "utf-8"
          · simp [find_cookie, hda, hcn, hlk, hc]
          · simp [find_cookie, hda, hcn, hlk, hc]

theorem fc_value (lookup : Chars → Option Chars) (line : List Nat) (s nm codecN : Chars)
    (hda : decodeAscii line = some s) (hcn : cookieName s = some nm)
    (hlk : lookup (_get_normal_name nm) = some codecN) :
    find_cookie lookup false line = .ok (some (_get_normal_name nm)) ∧
    (codecN = cs "utf-8" →
      find_cookie lookup true line = .ok (some (_get_normal_name nm ++ cs "-sig"))) := by
  constructor
  · simp [find_cookie, hda, hcn, hlk]
  · intro hc
    simp [find_cookie, hda, hcn, hlk, hc]
theorem de_default (lookup : Chars → Option Chars) (input : List (List Nat))
    (hbp : BOM_UTF8.isPrefixOf (input.headD []) = false)
    (h1 : find_cookie lookup false (input.headD []) = .ok none)
    (h2 : find_cookie lookup false ((input.drop 1).headD []) = .ok none) :
    ∃ consumed, detect_encoding lookup input = .ok (cs "utf-8", consumed) := by
  unfold detect_encoding detectBom
  rw [if_neg (by rw [hbp]; exact Bool.false_ne_true)]
  dsimp only
  by_cases hf : input.headD [] = []
  · rw [if_pos hf]; exact ⟨[], rfl⟩
  · rw [if_neg hf, h1]
    by_cases hb : blankRe (input.headD []) = true
    · rw [hb]
      dsimp only
      by_cases hs : (input.drop 1).headD [] = []
      · rw [if_pos hs]; exact ⟨_, rfl⟩
      · rw [if_neg hs, h2]; exact ⟨_, rfl⟩
    · rw [Bool.not_eq_true] at hb
      rw [hb]
      dsimp only
      exact ⟨_, rfl⟩

theorem de_bom_default (lookup : Chars → Option Chars) (input : List (List Nat))
    (hbp : BOM_UTF8.isPrefixOf (input.headD []) = true)
    (h1 : find_cookie lookup true ((input.headD []).drop 3) = .ok none)
    (h2 : find_cookie lookup true ((input.drop 1).headD []) = .ok none) :
    ∃ consumed, detect_encoding lookup input = .ok (cs "utf-8-sig", consumed) := by
  unfold detect_encoding detectBom
  rw [if_pos hbp]
  dsimp only
  by_cases hf : (input.headD []).drop 3 = []
  · rw [if_pos hf]; exact ⟨[], rfl⟩
  · rw [if_neg hf, h1]
    by_cases hb : blankRe ((input.headD []).drop 3) = true
    · rw [hb]
      dsimp only
      by_cases hs : (input.drop 1).headD [] = []
      · rw [if_pos hs]; exact ⟨_, rfl⟩
      · rw [if_neg hs, h2]; exact ⟨_, rfl⟩
    · rw [Bool.not_eq_true] at hb
      rw [hb]
      dsimp only
      exact ⟨_, rfl⟩

theorem de_cookie (lookup : Chars → Option Chars) (input : List (List Nat)) (enc : Chars)
    (hne : (detectBom (input.headD [])).2.1 ≠ [])
    (hfc : find_cookie lookup (detectBom (input.headD [])).1 (detectBom (input.headD [])).2.1
      = .ok (some enc)) :
    detect_encoding lookup input = .ok (enc, [(detectBom (input.headD [])).2.1]) := by
  unfold detect_encoding
  rcases hdb : detectBom (input.headD []) with ⟨bom, first, default⟩
  rw [hdb] at hne hfc
  dsimp only at hne hfc ⊢
  rw [if_neg hne, hfc]
theorem de_err_iff (lookup : Chars → Option Chars) (input : List (List Nat)) :
    (∃ e, detect_encoding lookup input = .error e) ↔
      ((detectBom (input.headD [])).2.1 ≠ [] ∧
        ((∃ e, find_cookie lookup (detectBom (input.headD [])).1
            (detectBom (input.headD [])).2.1 = .error e) ∨
         (find_cookie lookup (detectBom (input.headD [])).1
            (detectBom (input.headD [])).2.1 = .ok none ∧
          blankRe (detectBom (input.headD [])).2.1 = true ∧
          (input.drop 1).headD [] ≠ [] ∧
          ∃ e, find_cookie lookup (detectBom (input.headD [])).1
            ((input.drop 1).headD []) = .error e))) := by
  rcases hdb : detectBom (input.headD []) with ⟨bom, first, default⟩
  unfold detect_encoding
  rw [hdb]
  dsimp only
  by_cases hf : first = []
  · rw [if_pos hf]
    simp [hf]
  · rw [if_neg hf]
    rcases hfc : find_cookie lookup bom first with e | o
    · simp [hfc, hf]
    · rcases o with _ | enc
      · dsimp only
        simp only [hfc]
        by_cases hb : blankRe first = true
        · rw [hb]
          by_cases hs : (input.drop 1).headD [] = []
          · rw [if_pos hs]
            have hs2 : (input[1]?).getD [] = [] := by simpa using hs
            simp [hf, hb, hs, hs2]
          · rw [if_neg hs]
            have hs2 : ¬(input[1]?).getD [] = [] := by simpa using hs
            rcases hfc2 : find_cookie lookup bom ((input.drop 1).headD []) with e2 | o2
            · have hfc2b : find_cookie lookup bom ((input[1]?).getD []) = .error e2 := by
                simpa using hfc2
              simp [hf, hb, hs2, hfc2, hfc2b]
            · have hfc2b : find_cookie lookup bom ((input[1]?).getD []) = .ok o2 := by
                simpa using hfc2
              rcases o2 with _ | enc2 <;> simp [hf, hb, hs2, hfc2, hfc2b]
        · rw [Bool.not_eq_true] at hb
          rw [hb]
          simp [hf, hb]
      · simp [hfc, hf]

/-- C10.  `detect_encoding` raises `SyntaxError` exactly when a cookie names
an encoding unknown to the codec registry or a UTF-8 BOM is present with a
cookie whose codec is not utf-8 (on whichever of the two inspected lines the
cookie sits, the second being read only when the first is blank); a matching
cookie reports its normalized name, `-sig`-suffixed under a BOM; with a BOM
and no cookie the result is `utf-8-sig`, and with neither it is the default
`utf-8`. -/
theorem claim10_detect_encoding :
    (∀ (lookup : Chars → Option Chars) (bom : Bool) (line : List Nat),
      (∃ e, find_cookie lookup bom line = .error e) ↔
        ∃ s nm, decodeAscii line = some s ∧ cookieName s = some nm ∧
          (lookup (_get_normal_name nm) = none ∨
           (bom = true ∧ ¬ lookup (_get_normal_name nm) = some (cs "utf-8")))) ∧
    (∀ (lookup : Chars → Option Chars) (line : List Nat) (s nm codecN : Chars),
      decodeAscii line = some s → cookieName s = some nm →
      lookup (_get_normal_name nm) = some codecN →
      find_cookie lookup false line = .ok (some (_get_normal_name nm)) ∧
      (codecN = cs "utf-8" →
        find_cookie lookup true line = .ok (some (_get_normal_name nm ++ cs "-sig")))) ∧
    (∀ (lookup : Chars → Option Chars) (input : List (List Nat)),
      (∃ e, detect_encoding lookup input = .error e) ↔
        ((detectBom (input.headD [])).2.1 ≠ [] ∧
          ((∃ e, find_cookie lookup (detectBom (input.headD [])).1
              (detectBom (input.headD [])).2.1 = .error e) ∨
           (find_cookie lookup (detectBom (input.headD [])).1
              (detectBom (input.headD [])).2.1 = .ok none ∧
            blankRe (detectBom (input.headD [])).2.1 = true ∧
            (input.drop 1).headD [] ≠ [] ∧
            ∃ e, find_cookie lookup (detectBom (input.headD [])).1
              ((input.drop 1).headD []) = .error e)))) ∧
    (∀ (lookup : Chars → Option Chars) (input : List (List Nat)),
      BOM_UTF8.isPrefixOf (input.headD []) = false →
      find_cookie lookup false (input.headD []) = .ok none →
      find_cookie lookup false ((input.drop 1).headD []) = .ok none →
      ∃ consumed, detect_encoding lookup input = .ok (cs "utf-8", consumed)) ∧
    (∀ (lookup : Chars → Option Chars) (input : List (List Nat)),
      BOM_UTF8.isPrefixOf (input.headD []) = true →
      find_cookie lookup true ((input.headD []).drop 3) = .ok none →
      find_cookie lookup true ((input.drop 1).headD []) = .ok none →
      ∃ consumed, detect_encoding lookup input = .ok (cs "utf-8-sig", consumed)) ∧
    (∀ (lookup : Chars → Option Chars) (input : List (List Nat)) (enc : Chars),
      (detectBom (input.headD [])).2.1 ≠ [] →
      find_cookie lookup (detectBom (input.headD [])).1 (detectBom (input.headD [])).2.1
        = .ok (some enc) →
      detect_encoding lookup input = .ok (enc, [(detectBom (input.headD [])).2.1])) :=
  ⟨fc_err_iff,
   fun lookup line s nm codecN hda hcn hlk => fc_value lookup line s nm codecN hda hcn hlk,
   de_err_iff,
   fun lookup input hbp h1 h2 => de_default lookup input hbp h1 h2,
   fun lookup input hbp h1 h2 => de_bom_default lookup input hbp h1 h2,
   fun lookup input enc hne hfc => de_cookie lookup input enc hne hfc⟩

end BlackTok


